import Mathlib

/-!
Verification development for the claims-data-exporter browser extension.

The definitions below are a shallow embedding of the JavaScript source of the
repository: the CSV reader, the export driver loop with its durable
checkpointing, the claim fetcher, the recursive file-tree walk, and the
batched export assembler. JavaScript strings are modelled as Lean `String`
(lists of characters), JSON values as the `Json` inductive, exceptions as
`Except String`, the durable key-value store as explicit maps/sets, and the
remote HTTP world as an oracle record supplying the outcome of each call.
Wall-clock timestamps and pacing delays are irrelevant to all properties
proved here and are not modelled (a `now` string is threaded where a
timestamp appears in output).
-/

namespace ClaimsExporter

/-! Basic string utilities mirroring the JavaScript string operations used by
the source (trim, toLowerCase, includes, startsWith, template rendering of
numbers). -/

/-- Whitespace test used to model JavaScript `String.prototype.trim`
(restricted to the ASCII whitespace characters that can occur here). -/
def isWsChar (c : Char) : Bool :=
  c = ' ' || c = '\t' || c = '\n' || c = '\r' || c = '\x0b' || c = '\x0c'

/-- Drop leading and trailing whitespace from a character list. -/
def trimChars (cs : List Char) : List Char :=
  ((cs.dropWhile isWsChar).reverse.dropWhile isWsChar).reverse

/-- Model of JavaScript `s.trim()`. -/
def trimString (s : String) : String :=
  String.mk (trimChars s.toList)

/-- Model of JavaScript `s.toLowerCase()` (ASCII case folding). -/
def lowerString (s : String) : String :=
  String.mk (s.toList.map Char.toLower)

/-- Model of the source's `h.toLowerCase().trim()` combination. -/
def lowerTrim (s : String) : String :=
  trimString (lowerString s)

/-- Contiguous-sublist test on character lists. -/
def listIsInfix (sub : List Char) : List Char → Bool
  | [] => sub.isEmpty
  | c :: cs => sub.isPrefixOf (c :: cs) || listIsInfix sub cs

/-- Model of JavaScript `s.includes(sub)`. -/
def containsSub (s sub : String) : Bool :=
  listIsInfix sub.toList s.toList

/-- Model of JavaScript `s.startsWith(pre)`. -/
def startsWithSub (s pre : String) : Bool :=
  pre.toList.isPrefixOf s.toList

/-- Join a list of strings with a separator (model of `Array.prototype.join`). -/
def joinSep (sep : String) : List String → String
  | [] => ""
  | [x] => x
  | x :: y :: xs => x ++ sep ++ joinSep sep (y :: xs)

/-- A run of `n` space characters (for the JSON pretty renderer). -/
def spacesn (n : ℕ) : String :=
  String.mk (List.replicate n ' ')

/-- The decimal digit character for `n < 10`. -/
def natDigitChar (n : ℕ) : Char :=
  Char.ofNat (48 + n)

/-- Fuelled decimal rendering of a natural number (structural recursion so
that concrete values reduce definitionally). -/
def natToCharsAux : ℕ → ℕ → List Char → List Char
  | 0, _, acc => acc
  | fuel + 1, n, acc =>
    if n < 10 then natDigitChar n :: acc
    else natToCharsAux fuel (n / 10) (natDigitChar (n % 10) :: acc)

/-- Decimal rendering of a natural number, as produced by a JavaScript
template literal `${n}`. -/
def natToString (n : ℕ) : String :=
  String.mk (natToCharsAux (n + 1) n [])

/-- JSON string escaping for one character (the escapes `JSON.stringify`
emits for the characters that matter here). -/
def escapeChar (c : Char) : List Char :=
  if c = '\"' then ['\\', '\"']
  else if c = '\\' then ['\\', '\\']
  else if c = '\n' then ['\\', 'n']
  else if c = '\r' then ['\\', 'r']
  else if c = '\t' then ['\\', 't']
  else [c]

/-- JSON string escaping, as performed by `JSON.stringify` on a string. -/
def escapeString (s : String) : String :=
  String.mk (s.toList.flatMap escapeChar)

/-! A model of JSON values (the data the remote API returns and the durable
store holds). Numbers are modelled as naturals: every number this
development manipulates is a count or an id. -/

/-- JSON values. -/
inductive Json where
  | null : Json
  | bool (b : Bool) : Json
  | num (n : ℕ) : Json
  | str (s : String) : Json
  | arr (elems : List Json) : Json
  | obj (fields : List (String × Json)) : Json

/-- JavaScript truthiness of a JSON value (`undefined` is collapsed into
`null`, which has the same truthiness and is interchangeable for every use
the source makes of it). -/
def Json.truthy : Json → Bool
  | .null => false
  | .bool b => b
  | .num n => decide (n ≠ 0)
  | .str s => decide (s ≠ "")
  | .arr _ => true
  | .obj _ => true

/-- Object-member lookup; `none` models JavaScript `undefined`. -/
def Json.lookup : Json → String → Option Json
  | .obj fields, k => List.lookup k fields
  | _, _ => none

/-- Model of JavaScript member access `j.k` combined with optional
chaining: accessing a member of a non-object yields `undefined`/`null`. -/
def jsGet (j : Json) (k : String) : Json :=
  (j.lookup k).getD Json.null

/-- Model of the JavaScript `a || b` default idiom. -/
def jsOr (a b : Json) : Json :=
  if a.truthy then a else b

/-- Array test/extraction (model of `Array.isArray` plus element access). -/
def Json.asArr : Json → Option (List Json)
  | .arr elems => some elems
  | _ => none

/-- Model of `searchData.Claims[0]`-style indexing of the first element. -/
def jsFirst (j : Json) : Json :=
  match j.asArr with
  | some (x :: _) => x
  | _ => Json.null

/-- Rendering of a JSON value inside a JavaScript template literal
(strings verbatim, numbers in decimal; the exotic array/object cases are
modelled shallowly since only strings and numbers occur as keys/uuids). -/
def jsTemplate : Json → String
  | .str s => s
  | .num n => natToString n
  | .bool true => "true"
  | .bool false => "false"
  | .null => "null"
  | .arr _ => ""
  | .obj _ => "[object Object]"

mutual

/-- Compact JSON serialization, as `JSON.stringify` produces. -/
def Json.stringify : Json → String
  | .null => "null"
  | .bool true => "true"
  | .bool false => "false"
  | .num n => natToString n
  | .str s => "\"" ++ escapeString s ++ "\""
  | .arr elems => "[" ++ joinSep "," (Json.stringifyList elems) ++ "]"
  | .obj fields => "\x7b" ++ joinSep "," (Json.stringifyFields fields) ++ "\x7d"

/-- Compact serialization of the elements of a JSON array. -/
def Json.stringifyList : List Json → List String
  | [] => []
  | j :: js => Json.stringify j :: Json.stringifyList js

/-- Compact serialization of the members of a JSON object. -/
def Json.stringifyFields : List (String × Json) → List String
  | [] => []
  | (k, v) :: fs => ("\"" ++ escapeString k ++ "\":" ++ Json.stringify v) :: Json.stringifyFields fs

end

mutual

/-- Pretty JSON renderer: containers above nesting level 3 are rendered on
multiple lines with two-space indentation, deeper values compactly. Level 0
of this renderer produces exactly the layout the popup's download assembler
emits for the export document. -/
def Json.render (level : ℕ) : Json → String
  | .arr elems =>
    if 3 ≤ level then Json.stringify (.arr elems)
    else "[\n" ++ joinSep ",\n" (Json.renderList level elems) ++ "\n" ++ spacesn (level * 2) ++ "]"
  | .obj fields =>
    if 3 ≤ level then Json.stringify (.obj fields)
    else "\x7b\n" ++ joinSep ",\n" (Json.renderFields level fields) ++ "\n" ++ spacesn (level * 2) ++ "\x7d"
  | j => Json.stringify j

/-- Pretty rendering of the elements of a JSON array. -/
def Json.renderList (level : ℕ) : List Json → List String
  | [] => []
  | j :: js => (spacesn ((level + 1) * 2) ++ Json.render (level + 1) j) :: Json.renderList level js

/-- Pretty rendering of the members of a JSON object. -/
def Json.renderFields (level : ℕ) : List (String × Json) → List String
  | [] => []
  | (k, v) :: fs =>
    (spacesn ((level + 1) * 2) ++ "\"" ++ escapeString k ++ "\": " ++ Json.render (level + 1) v)
      :: Json.renderFields level fs

end

/-! CSV reader, translated from `parseCsvRows` and `parseCsv` in the
content script (src/unnamed/part_000, lines 241-365). -/

/-- One parsed claim identifier: the value found at the selected column of
one data row, together with the originating physical row index
(`{fileNumber, rowIndex}` objects in the source). -/
structure ClaimIdent where
  fileNumber : String
  rowIndex : ℕ
deriving DecidableEq, Repr

/-- Push a finished row, dropping it when every field is empty
(`if (currentRow.some(f => f.length > 0)) rows.push(currentRow)`). -/
def pushRow (row : List String) (rows : List (List String)) : List (List String) :=
  if row.any (fun f => f.length > 0) then rows ++ [row] else rows

/-- The trimmed field pushed by the tokenizer (`currentField.trim()`). -/
def fieldOf (field : List Char) : String :=
  String.mk (trimChars field)

/-- The quote-aware left-to-right CSV row tokenizer, a character-by-character
translation of `parseCsvRows` (part_000 lines 241-287). State: remaining
input, the `inQuotes` flag, the current field, the current row, the finished
rows. -/
def parseCsvRowsAux : List Char → Bool → List Char → List String → List (List String) → List (List String)
  | [], _, field, row, rows => pushRow (row ++ [fieldOf field]) rows
  | '\"' :: '\"' :: rest, true, field, row, rows =>
    parseCsvRowsAux rest true (field ++ ['\"']) row rows
  | '\"' :: rest, true, field, row, rows =>
    parseCsvRowsAux rest false field row rows
  | c :: rest, true, field, row, rows =>
    parseCsvRowsAux rest true (field ++ [c]) row rows
  | '\"' :: rest, false, field, row, rows =>
    parseCsvRowsAux rest true field row rows
  | ',' :: rest, false, field, row, rows =>
    parseCsvRowsAux rest false [] (row ++ [fieldOf field]) rows
  | '\n' :: rest, false, field, row, rows =>
    parseCsvRowsAux rest false [] [] (pushRow (row ++ [fieldOf field]) rows)
  | '\r' :: '\n' :: rest, false, field, row, rows =>
    parseCsvRowsAux rest false [] [] (pushRow (row ++ [fieldOf field]) rows)
  | c :: rest, false, field, row, rows =>
    parseCsvRowsAux rest false (field ++ [c]) row rows

/-- Parse CSV text into rows of trimmed fields (`parseCsvRows`). -/
def parseCsvRows (csvText : String) : List (List String) :=
  parseCsvRowsAux csvText.toList false [] [] []

/-- The tier-1 exact header names (part_000 line 306). -/
def exactNames : List String :=
  ["file number", "file #", "file#", "filenumber",
   "claim number", "claim #", "claim#", "claimnumber"]

/-- Tier-1 column test: header equals one of the exact names,
case-insensitively (part_000 lines 307-309). -/
def tier1Match (h : String) : Bool :=
  exactNames.contains (lowerTrim h)

/-- Tier-2 column test: header starts with "file" or "claim" and contains
"number", "#", or "no" (part_000 lines 312-317). -/
def tier2Match (h : String) : Bool :=
  (startsWithSub (lowerTrim h) "file" || startsWithSub (lowerTrim h) "claim")
    && (containsSub (lowerTrim h) "number" || containsSub (lowerTrim h) "#"
          || containsSub (lowerTrim h) "no")

/-- The tier-3 exclusion substrings (part_000 line 320). -/
def excludePatterns : List String :=
  ["profile", "filed", "filename", "claim status", "claim type", "claim date"]

/-- Tier-3 column test: header contains "file" or "claim" and none of the
exclusion substrings (part_000 lines 321-326). -/
def tier3Match (h : String) : Bool :=
  !(excludePatterns.any (fun ex => containsSub (lowerTrim h) ex))
    && (containsSub (lowerTrim h) "file" || containsSub (lowerTrim h) "claim")

/-- Index-tracking first-match search, the model of `Array.prototype.findIndex`
(`none` models the -1 result). -/
def findIndexFrom (p : α → Bool) : List α → ℕ → Option ℕ
  | [], _ => none
  | x :: xs, i => if p x then some i else findIndexFrom p xs (i + 1)

/-- First index in `l` whose element satisfies `p`. -/
def findIndexB (p : α → Bool) (l : List α) : Option ℕ :=
  findIndexFrom p l 0

/-- The three-tier column-selection policy of `parseCsv`
(part_000 lines 305-326): tiers are tried in order, first match wins. -/
def findColumnIndex (headers : List String) : Option ℕ :=
  match findIndexB tier1Match headers with
  | some i => some i
  | none =>
    match findIndexB tier2Match headers with
    | some i => some i
    | none => findIndexB tier3Match headers

/-- The two failure modes of the CSV phase (the `EmptyOrInvalidInput` and
`MissingIdentifierColumn` errors of the specification's taxonomy; thrown as
`Error`s in part_000 lines 296 and 329). -/
inductive CsvError where
  | emptyOrInvalid : CsvError
  | missingColumn (headers : List String) : CsvError
deriving DecidableEq, Repr

/-- The user-facing message of each CSV error (part_000 lines 296, 329). -/
def csvErrorMessage : CsvError → String
  | .emptyOrInvalid => "CSV file is empty or invalid"
  | .missingColumn headers =>
    "Could not find claim/file number column in CSV. Headers found: " ++ joinSep ", " headers

/-- The value of row `values` at column `idx` (`values[fileNumberIndex]`). -/
def valueAt (idx : ℕ) (values : List String) : String :=
  values.getD idx ""

/-- The row-to-identifier extraction loop of `parseCsv`
(part_000 lines 334-357): rows shorter than `idx + 1` are skipped (counted
as malformed in the source, where the count only feeds a console log);
an empty value is falsy and yields nothing; a value already in `seen` is
dropped as a duplicate. `rowNum` is the physical row index (starting at 1
for the first data row). -/
def extractClaims (idx : ℕ) : List (List String) → ℕ → List String → List ClaimIdent
  | [], _, _ => []
  | values :: rest, rowNum, seen =>
    if values.length < idx + 1 then extractClaims idx rest (rowNum + 1) seen
    else
      if valueAt idx values ≠ "" ∧ valueAt idx values ∉ seen then
        ⟨valueAt idx values, rowNum⟩ :: extractClaims idx rest (rowNum + 1) (valueAt idx values :: seen)
      else extractClaims idx rest (rowNum + 1) seen

/-- The CSV parser `parseCsv` (part_000 lines 292-365): tokenize, require at
least two rows, select the identifier column, extract identifiers. -/
def parseCsv (text : String) : Except CsvError (List ClaimIdent) :=
  match parseCsvRows text with
  | [] => .error .emptyOrInvalid
  | [_] => .error .emptyOrInvalid
  | headers :: dataRows =>
    match findColumnIndex headers with
    | none => .error (.missingColumn headers)
    | some idx => .ok (extractClaims idx dataRows 1 [])

/-- Specification-side eligibility of a data row for the identifier column:
the row reaches the selected column and the value there is non-empty. -/
def eligibleRow (idx : ℕ) (values : List String) : Prop :=
  idx + 1 ≤ values.length ∧ valueAt idx values ≠ ""

instance (idx : ℕ) (values : List String) : Decidable (eligibleRow idx values) :=
  inferInstanceAs (Decidable (_ ∧ _))

/-- Specification-side keep condition for data row `i` of `l` (given values
`seen` already taken): the row is eligible, its value is not in `seen`, and
no earlier eligible row has the same value. This is the declarative
"first occurrence is kept" reading of the spec. -/
def specKeep (idx : ℕ) (seen : List String) (l : List (List String)) (i : ℕ) : Prop :=
  eligibleRow idx (l.getD i []) ∧ valueAt idx (l.getD i []) ∉ seen ∧
    ∀ j, j < i → eligibleRow idx (l.getD j []) →
      valueAt idx (l.getD j []) ≠ valueAt idx (l.getD i [])

instance (idx : ℕ) (seen : List String) (l : List (List String)) (i : ℕ) :
    Decidable (specKeep idx seen l i) :=
  inferInstanceAs (Decidable (_ ∧ _ ∧ _))

/-- Specification-side extraction: keep exactly the first occurrence of each
distinct non-empty value among the eligible rows, in original row order;
row `i` of `l` is physical row `r + i`. -/
def specExtract (idx : ℕ) (seen : List String) (l : List (List String)) (r : ℕ) : List ClaimIdent :=
  (List.range l.length).filterMap fun i =>
    if specKeep idx seen l i then some ⟨valueAt idx (l.getD i []), r + i⟩ else none

/-! Export driver, translated from `processCsvAndFetchData`, `resumeExport`
and `processClaimsList` (part_000 lines 86-234). The remote world is an
oracle `fetchOne : ℕ → Except String α` giving the outcome of the claim
fetch issued at each loop index; `α` is the type of successfully fetched
records. -/

/-- The persisted job ledger `exportJob` (part_000 lines 101-109). The
`startedAt` wall-clock timestamp is not modelled: no property depends on it. -/
structure ExportJob where
  fileNumbers : List String
  total : ℕ
  completedCount : ℕ
  testMode : Bool
deriving DecidableEq, Repr

/-- The value persisted at key `exportedClaim_i`: either the fetched record,
or — when the fetch threw — the claim's fields plus an `error` field holding
the failure message (`{ ...claim, error: error.message }`, part_000
line 198). -/
inductive SavedData (α : Type) where
  | fetched (r : α) : SavedData α
  | failed (claim : ClaimIdent) (errMsg : String) : SavedData α
deriving DecidableEq, Repr

/-- The catch around `fetchClaimDetails` in the driver loop (part_000
lines 192-199): a successful fetch is saved as-is, a thrown error becomes an
error-tagged record. -/
def savedDataOf {α : Type} (claim : ClaimIdent) (res : Except String α) : SavedData α :=
  match res with
  | .ok r => .fetched r
  | .error msg => .failed claim msg

/-- Outcome of one driver-loop run: the sequence of durable per-claim writes
`(index, value)` in the order they are issued, plus the `exportComplete` /
`exportError` flags the loop leaves in storage (lines 225-228; the loop body
contains no throwing operation outside its catch, so the loop always reaches
its completion code). -/
structure LoopRun (α : Type) where
  writes : List (ℕ × SavedData α)
  exportComplete : Bool
  exportError : Option String
deriving DecidableEq, Repr

/-- The per-claim loop of `processClaimsList` from index `i` (part_000
lines 181-216): fetch, catch, save at key `i`, advance. -/
def processClaimsListFrom {α : Type} (fetchOne : ℕ → Except String α)
    (claimsToProcess : List ClaimIdent) (i : ℕ) : List (ℕ × SavedData α) :=
  if h : i < claimsToProcess.length then
    (i, savedDataOf (claimsToProcess.getD i ⟨"", 0⟩) (fetchOne i))
      :: processClaimsListFrom fetchOne claimsToProcess (i + 1)
  else []
termination_by claimsToProcess.length - i

/-- `processClaimsList(claimsToProcess, startFrom)` (part_000 lines 168-234):
run the loop from `startFrom`, then mark the export complete. -/
def processClaimsList {α : Type} (fetchOne : ℕ → Except String α)
    (claimsToProcess : List ClaimIdent) (startFrom : ℕ) : LoopRun α :=
  { writes := processClaimsListFrom fetchOne claimsToProcess startFrom
    exportComplete := true
    exportError := none }

/-- `resumeExport()` (part_000 lines 130-162): fail when no job is stored;
otherwise rebuild the claims list from the persisted `fileNumbers` and
re-enter the loop at `completedCount`. -/
def resumeExport {α : Type} (storedJob : Option ExportJob)
    (fetchOne : ℕ → Except String α) : Except String (LoopRun α) :=
  match storedJob with
  | none => .error "No export job found to resume"
  | some job =>
    let claimsToProcess := job.fileNumbers.mapIdx fun i fn => ⟨fn, i⟩
    .ok (processClaimsList fetchOne claimsToProcess job.completedCount)

/-- Outcome of `processCsvAndFetchData` (part_000 lines 86-125): the
persisted job (if one was created), the driver-loop run (if reached), and
the `exportError` left in storage by the outer catch. -/
structure CsvRunOutcome (α : Type) where
  job : Option ExportJob
  run : Option (LoopRun α)
  exportError : Option String

/-- `processCsvAndFetchData(csvText, testMode)` (part_000 lines 86-125):
parse the CSV, reject an empty claim list, take only the first claim in
test mode, persist a fresh job with `completedCount = 0`, and run the loop
from index 0. Parse errors are caught and recorded as `exportError`. -/
def processCsvAndFetchData {α : Type} (csvText : String) (testMode : Bool)
    (fetchOne : ℕ → Except String α) : CsvRunOutcome α :=
  match parseCsv csvText with
  | .error e => { job := none, run := none, exportError := some (csvErrorMessage e) }
  | .ok claims =>
    if claims.length = 0 then
      { job := none, run := none, exportError := some "No claims found in CSV" }
    else
      let claimsToProcess := if testMode then claims.take 1 else claims
      { job := some
          { fileNumbers := claimsToProcess.map (·.fileNumber)
            total := claimsToProcess.length
            completedCount := 0
            testMode := testMode }
        run := some (processClaimsList fetchOne claimsToProcess 0)
        exportError := none }

/-! Durable-checkpoint state machine for the invariant claims. One driver
iteration performs two separately-awaited durable writes (part_000
lines 202-210): first `saveClaimToStorage(i, ...)` persists key
`exportedClaim_i`, then a second storage operation sets
`exportJob.completedCount = i + 1`. A crash can strike at the suspension
point between them; resume re-enters the loop at the persisted
`completedCount`. At the top of each loop iteration the loop index equals
the persisted `completedCount`, so the durable state is abstracted by the
set of stored keys, the counter, and whether the iteration is between its
two writes. -/

/-- Position of the driver within one checkpoint iteration: `ready` is the
top of the loop (or any point before the record write lands); `saved` is
the window after the record at index `completedCount` is durably stored but
before the counter update lands. -/
inductive DriverPhase where
  | ready : DriverPhase
  | saved : DriverPhase
deriving DecidableEq, Repr

/-- Durable state of one export job: job size, persisted `completedCount`,
the set of indices `i` with a stored `exportedClaim_i` key, and the phase. -/
structure DriverState where
  total : ℕ
  completedCount : ℕ
  storedKeys : Finset ℕ
  phase : DriverPhase
deriving DecidableEq

/-- Durable state right after a fresh job is persisted (part_000
lines 100-110: `completedCount = 0`, no claim keys yet). -/
def initialDriverState (total : ℕ) : DriverState :=
  { total := total, completedCount := 0, storedKeys := ∅, phase := .ready }

/-- Atomic durable transitions of the driver, including crash-and-resume.
`fetchSave` is the awaited `saveClaimToStorage(i, claimData)` write for the
current index (line 202); `bumpCount` is the storage update setting
`completedCount = i + 1` (lines 205-210); `interruptResume` is a crash in
the window between the two writes followed by `resumeExport`, which
restarts the iteration at the persisted `completedCount` (line 149) — the
store and counter are untouched and the interrupted index will be fetched
and saved again. A crash before the record write resumes into the same
`ready` state and needs no transition. -/
inductive DriverStep : DriverState → DriverState → Prop where
  | fetchSave (s : DriverState) (hp : s.phase = .ready) (hlt : s.completedCount < s.total) :
      DriverStep s { s with storedKeys := insert s.completedCount s.storedKeys, phase := .saved }
  | bumpCount (s : DriverState) (hp : s.phase = .saved) :
      DriverStep s { s with completedCount := s.completedCount + 1, phase := .ready }
  | interruptResume (s : DriverState) (hp : s.phase = .saved) :
      DriverStep s { s with phase := .ready }

/-- Durable states reachable during a job of size `total`, across any
sequence of iterations, interruptions and resumes. -/
def DriverReachable (total : ℕ) (s : DriverState) : Prop :=
  Relation.ReflTransGen DriverStep (initialDriverState total) s

/-- The durable state after the first record write of a 1-claim job, before
the counter update has landed. -/
def midWriteState : DriverState :=
  { total := 1, completedCount := 0, storedKeys := insert 0 ∅, phase := .saved }

/-- The durable state after the full first iteration of a 1-claim job:
record written, counter advanced. -/
def finishedState : DriverState :=
  { total := 1, completedCount := 1, storedKeys := insert 0 ∅, phase := .ready }

/-! Claim fetcher, translated from `fetchClaimDetails`, `fetchAllFiles` and
`fetchApi` (part_000 lines 371-569). The remote API is an oracle record:
each field is the outcome of the corresponding call (`.error` models a
rejected promise, i.e. a thrown `fetchApi` error or non-OK response). -/

/-- Outcomes of the remote calls one `fetchClaimDetails` invocation can
issue. `searchOk`/`searchStatus` model the POST `/api/search/` response
status; `searchClaims` models `searchData.Claims` (`none` when the body or
its `Claims` member is missing, `some l` when it is the array `l` — the API
returns an array there). `filesTree` maps a folder key (`none` = root) to
the result of the files/tree listing for that folder. -/
structure RemoteWorld where
  searchOk : Bool
  searchStatus : ℕ
  searchClaims : Option (List Json)
  claimDetail : Except String Json
  insuranceRes : Except String Json
  mortgagesRes : Except String Json
  externalRes : Except String Json
  actionsRes : Except String Json
  ledgerRes : Except String Json
  notesRes : Except String Json
  activityRes : Except String Json
  filesTree : Option String → Except String Json

/-- The aggregated record for one claim, with exactly the optional fields
the source can set on `claimResult` (part_000 lines 404-511). An `Option`
field is `none` when the corresponding `if` guard in the source did not
fire. Contacts and files are kept as the JSON objects the source builds. -/
structure ClaimRecord where
  fileNumber : String
  claimId : Json
  claimUuid : Json
  claimDetails : Json
  fullClaimData : Option Json := none
  contacts : Option (List Json) := none
  personnel : Option Json := none
  phases : Option Json := none
  insurance : Option Json := none
  mortgages : Option Json := none
  externalPersonnel : Option Json := none
  actionItems : Option Json := none
  ledger : Option Json := none
  ledgerNotes : Option Json := none
  ledgerInvoices : Option Json := none
  files : Option (List Json) := none
  notes : Option Json := none
  activity : Option Json := none

/-- The normalized primary contact (part_000 lines 421-431). -/
def primaryContactJson (primary : Json) : Json :=
  Json.obj
    [("id", jsGet primary "id"),
     ("uuid", jsGet primary "uuid"),
     ("firstName", jsOr (jsGet primary "firstName") (Json.str "")),
     ("lastName", jsOr (jsGet primary "lastName") (Json.str "")),
     ("email", jsOr (jsGet primary "email") (Json.str "")),
     ("phone", jsOr (jsGet (jsGet primary "preferredPhone") "number")
                 (jsOr (jsGet (jsGet primary "phone") "number") (Json.str ""))),
     ("address", jsGet primary "address"),
     ("isPrimary", Json.bool true)]

/-- A normalized secondary contact (part_000 lines 435-446). -/
def secondaryContactJson (contact : Json) : Json :=
  Json.obj
    [("id", jsGet contact "id"),
     ("uuid", jsOr (jsGet contact "uuid") (jsGet contact "uniqueID")),
     ("firstName", jsOr (jsGet contact "firstName")
                     (jsOr (jsGet (jsGet contact "name") "firstName") (Json.str ""))),
     ("lastName", jsOr (jsGet contact "lastName")
                    (jsOr (jsGet (jsGet contact "name") "lastName") (Json.str ""))),
     ("email", jsOr (jsGet contact "email") (Json.str "")),
     ("phone", jsOr (jsGet (jsGet contact "preferredPhone") "number") (Json.str "")),
     ("address", jsGet contact "physicalAddress"),
     ("isPrimary", Json.bool false)]

/-- Contact extraction from the full claim document (part_000
lines 417-449): present only when `propcontacts` is truthy; the primary
contact `propcontacts.c` if truthy, then the `propcontacts.cc` array if it
is a truthy array. -/
def extractContacts (fullDetails : Json) : Option (List Json) :=
  if (jsGet fullDetails "propcontacts").truthy then
    let pc := jsGet fullDetails "propcontacts"
    let primaryPart := if (jsGet pc "c").truthy then [primaryContactJson (jsGet pc "c")] else []
    let ccPart :=
      if (jsGet pc "cc").truthy then
        match (jsGet pc "cc").asArr with
        | some cc => cc.map secondaryContactJson
        | none => []
      else []
    some (primaryPart ++ ccPart)
  else none

/-- The fixed recursion bound of the folder walk (part_000 line 520). -/
def maxDepth : ℕ := 5

/-- The reserved-folder test `item.key !== 'ATTACHMENTS'` (negated). -/
def isAttachmentsKey (j : Json) : Bool :=
  match j with
  | .str s => s = "ATTACHMENTS"
  | _ => false

/-- `fetchAllFiles(claimId, folderKey, depth)` (part_000 lines 519-546):
empty beyond the depth bound; empty when the listing call fails or does not
return an array; otherwise walk the entries in order, recursing one level
deeper into folders that have children and a truthy key other than
`ATTACHMENTS`, and collecting non-folder entries with a truthy filename.
Each recursive call strictly increases `depth`, which is what makes the walk
total even on cyclic folder structures. -/
def fetchAllFiles (tree : Option String → Except String Json)
    (folderKey : Option String) (depth : ℕ) : List Json :=
  if _hd : maxDepth < depth then []
  else
    match tree folderKey with
    | .error _ => []
    | .ok resp =>
      match resp.asArr with
      | none => []
      | some items =>
        items.flatMap fun item =>
          if (jsGet item "folder").truthy && (jsGet item "hasChildren").truthy
              && (jsGet item "key").truthy && !isAttachmentsKey (jsGet item "key") then
            fetchAllFiles tree (some (jsTemplate (jsGet item "key"))) (depth + 1)
          else if !(jsGet item "folder").truthy && (jsGet item "filename").truthy then [item]
          else []
termination_by maxDepth + 1 - depth
decreasing_by simp only [maxDepth] at *; omega

/-- The re-mapping of a collected file into the exported file entry,
synthesizing `downloadUrl` from the claim UUID and the file key (part_000
lines 495-504). -/
def fileEntryJson (claimUuid : Json) (file : Json) : Json :=
  Json.obj
    [("title", jsGet file "title"),
     ("filename", jsGet file "filename"),
     ("key", jsGet file "key"),
     ("folder", Json.bool false),
     ("size", jsGet file "size"),
     ("fileDate", jsGet file "fileDate"),
     ("description", jsGet file "description"),
     ("downloadUrl", Json.str ("https://app.claimwizard.com/api/claim/"
        ++ jsTemplate claimUuid ++ "/file/" ++ jsTemplate (jsGet file "key") ++ "/?_vw=inline"))]

/-- The merge of the eight phase-3 results into the claim record (part_000
lines 477-511). Each result is examined independently; a rejected call or a
value of the wrong shape leaves the corresponding field unset. The files
walk itself never rejects, so its settled value is the list it returned. -/
def mergePhase3 (base : ClaimRecord) (claimUuid : Json) (filesList : List Json)
    (w : RemoteWorld) : ClaimRecord :=
  let r1 :=
    match w.insuranceRes with
    | .ok v =>
      if (jsGet (jsGet v "data") "insurance").truthy then
        { base with insurance := some (jsGet (jsGet v "data") "insurance") }
      else base
    | .error _ => base
  let r2 :=
    match w.mortgagesRes with
    | .ok v => match v.asArr with
      | some _ => { r1 with mortgages := some v }
      | none => r1
    | .error _ => r1
  let r3 :=
    match w.externalRes with
    | .ok v => match v.asArr with
      | some _ => { r2 with externalPersonnel := some v }
      | none => r2
    | .error _ => r2
  let r4 :=
    match w.actionsRes with
    | .ok v => match v.asArr with
      | some _ => { r3 with actionItems := some v }
      | none => r3
    | .error _ => r3
  let r5 :=
    match w.ledgerRes with
    | .ok v =>
      if (jsGet v "ledger").truthy then
        { r4 with
          ledger := some (jsGet v "ledger")
          ledgerNotes := some (jsOr (jsGet v "notes") (Json.arr []))
          ledgerInvoices := some (jsOr (jsGet v "invoices") (Json.arr [])) }
      else r4
    | .error _ => r4
  let r6 :=
    if 0 < filesList.length then
      { r5 with files := some (filesList.map (fileEntryJson claimUuid)) }
    else r5
  let r7 :=
    match w.notesRes with
    | .ok v => match v.asArr with
      | some _ => { r6 with notes := some v }
      | none => r6
    | .error _ => r6
  match w.activityRes with
  | .ok v =>
    if (jsGet (jsGet v "data") "activity").truthy ∧ ((jsGet (jsGet v "data") "activity").asArr).isSome then
      { r7 with activity := some (jsGet (jsGet v "data") "activity") }
    else r7
  | .error _ => r7

/-- `fetchClaimDetails(claim)` (part_000 lines 371-513). Phase 1: the search
call throws on a non-OK response (`Search failed: <status>`) and on a
missing/empty result set (`Claim not found: <fileNumber>`). Phase 2: the
primary detail fetch rethrows its failure; a truthy document contributes
`fullClaimData`, contacts, `personnel` and `phases`. Phase 3: the eight
fan-out results are merged independently and can never make the call throw. -/
def fetchClaimDetails (claim : ClaimIdent) (w : RemoteWorld) : Except String ClaimRecord :=
  if w.searchOk = false then
    .error ("Search failed: " ++ natToString w.searchStatus)
  else
    match w.searchClaims with
    | none => .error ("Claim not found: " ++ claim.fileNumber)
    | some [] => .error ("Claim not found: " ++ claim.fileNumber)
    | some (claimInfo :: _) =>
      let claimUuid := jsGet claimInfo "uuid"
      match w.claimDetail with
      | .error e => .error e
      | .ok fullDetails =>
        let base : ClaimRecord :=
          { fileNumber := claim.fileNumber
            claimId := jsGet claimInfo "id"
            claimUuid := claimUuid
            claimDetails := claimInfo }
        let withDetails :=
          if fullDetails.truthy then
            { base with
              fullClaimData := some fullDetails
              contacts := extractContacts fullDetails
              personnel :=
                if (jsGet fullDetails "personnel").truthy then some (jsGet fullDetails "personnel") else none
              phases :=
                if (jsGet fullDetails "phases").truthy then some (jsGet fullDetails "phases") else none }
          else base
        .ok (mergePhase3 withDetails claimUuid (fetchAllFiles w.filesTree none 0) w)

/-! Export assembler, translated from `downloadFromStorage` and
`LOAD_BATCH_SIZE` in the popup (src/unnamed/part_001, lines 478-479 and
759-853). The durable store of per-claim checkpoints is modelled as
`store : ℕ → Option Json`, where `store i` is the value at key
`exportedClaim_i`. Blob concatenation is string concatenation. -/

/-- How many claims are loaded from storage per batch (part_001 line 479). -/
def LOAD_BATCH_SIZE : ℕ := 100

/-- The inner batch loop (part_001 lines 792-800): stringify each present
claim of the batch, prefixing all but the very first emitted claim with
`",\n"`, each on its own line indented by six spaces. State: accumulated
batch string and the `isFirstClaim` flag. -/
def appendBatchClaims (store : ℕ → Option Json) (keys : List ℕ) (acc : String × Bool) :
    String × Bool :=
  keys.foldl
    (fun ab i =>
      match store i with
      | some claim =>
        (ab.1 ++ (if ab.2 then "" else ",\n") ++ "      " ++ Json.stringify claim, false)
      | none => ab)
    acc

/-- The outer batch loop (part_001 lines 781-810): process keys
`batchStart, …, min(batchStart + LOAD_BATCH_SIZE, count) - 1`, then advance
by `LOAD_BATCH_SIZE`. Returns the concatenation of all batch strings. -/
def downloadBatchesFrom (store : ℕ → Option Json) (count : ℕ)
    (batchStart : ℕ) (isFirst : Bool) : String :=
  if _hb : batchStart < count then
    let sb := appendBatchClaims store
      (List.range' batchStart (min (batchStart + LOAD_BATCH_SIZE) count - batchStart))
      ("", isFirst)
    sb.1 ++ downloadBatchesFrom store count (batchStart + LOAD_BATCH_SIZE) sb.2
  else ""
termination_by count - batchStart
decreasing_by simp only [LOAD_BATCH_SIZE] at *; omega

/-- `downloadFromStorage(isPartial)` (part_001 lines 759-853): nothing is
produced when no job is stored or `completedCount` is 0; otherwise the
output is the fixed JSON preamble, the batched claims section, and the
metadata postamble — with `partial`, `originalTotal` and `note` fields when
the export is partial. `now` stands for `new Date().toISOString()`. -/
def downloadFromStorage (store : ℕ → Option Json) (storedJob : Option ExportJob)
    (partialFlag : Bool) (now : String) : Option String :=
  match storedJob with
  | none => none
  | some job =>
    if job.completedCount = 0 then none
    else
      some ("\x7b\n  \"claimWizardData\": \x7b\n    \"claims\": [\n"
        ++ downloadBatchesFrom store job.completedCount 0 true
        ++ "\n    ],\n"
        ++ "    \"exportDate\": \"" ++ now ++ "\",\n"
        ++ "    \"exportMethod\": \"chrome-extension\"\n"
        ++ "  \x7d,\n"
        ++ "  \"exportInfo\": \x7b\n"
        ++ "    \"date\": \"" ++ now ++ "\",\n"
        ++ "    \"version\": \"1.0.2\",\n"
        ++ "    \"source\": \"chrome-extension\",\n"
        ++ "    \"totalClaims\": " ++ natToString job.completedCount
        ++ (if partialFlag then
              ",\n    \"partial\": true,\n    \"originalTotal\": " ++ natToString job.total
                ++ ",\n    \"note\": \"Partial export: " ++ natToString job.completedCount
                ++ " of " ++ natToString job.total ++ " claims (interrupted)\""
            else "")
        ++ "\n  \x7d\n\x7d")

/-- The stored records with indices `0, …, count - 1`, in ascending index
order, skipping missing keys (the `if (claim)` guard of part_001 line 795). -/
def collectClaims (store : ℕ → Option Json) (count : ℕ) : List Json :=
  (List.range count).filterMap store

/-- Reference form of the claims section: the records joined by `",\n"`,
each indented by six spaces (first-comma handling unrolled). -/
def claimsConcat (isFirst : Bool) : List Json → String
  | [] => ""
  | c :: rest =>
    (if isFirst then "" else ",\n") ++ "      " ++ Json.stringify c ++ claimsConcat false rest

/-- Specification-side shape of the assembled document, following §6 of the
spec: a single JSON object
`{claimWizardData: {claims, exportDate, exportMethod},
exportInfo: {date, version, source, totalClaims, partial?, originalTotal?,
note?}}`, where the optional fields are present exactly on partial
exports. -/
def exportDocumentSpec (claims : List Json) (now : String) (count total : ℕ)
    (partialFlag : Bool) : Json :=
  Json.obj
    [("claimWizardData", Json.obj
        [("claims", Json.arr claims),
         ("exportDate", Json.str now),
         ("exportMethod", Json.str "chrome-extension")]),
     ("exportInfo", Json.obj
        ([("date", Json.str now),
          ("version", Json.str "1.0.2"),
          ("source", Json.str "chrome-extension"),
          ("totalClaims", Json.num count)]
         ++ (if partialFlag then
              [("partial", Json.bool true),
               ("originalTotal", Json.num total),
               ("note", Json.str ("Partial export: " ++ natToString count ++ " of "
                  ++ natToString total ++ " claims (interrupted)"))]
             else [])))]

/-- A remote world whose search call returns a non-OK 500 response
(all later calls irrelevant). -/
def searchFailWorld : RemoteWorld :=
  { searchOk := false, searchStatus := 500, searchClaims := some [Json.obj []],
    claimDetail := .ok Json.null, insuranceRes := .ok Json.null, mortgagesRes := .ok Json.null,
    externalRes := .ok Json.null, actionsRes := .ok Json.null, ledgerRes := .ok Json.null,
    notesRes := .ok Json.null, activityRes := .ok Json.null, filesTree := fun _ => .ok Json.null }

/-- The property every row emitted by the tokenizer has: at least one
non-empty field, and every field already trimmed. -/
def goodRow (r : List String) : Prop :=
  (∃ f ∈ r, f ≠ "") ∧ ∀ f ∈ r, trimString f = f

/-! Theorems. General-purpose helper lemmas come first, then, per claim,
the claim theorem with its witness (and counterexample where a claim fails
on the code). -/

theorem head?_dropWhile_not (p : α → Bool) (l : List α) :
    ∀ c, (l.dropWhile p).head? = some c → p c = false := by
  induction l with
  | nil => simp
  | cons a t ih =>
    intro c hc
    rw [List.dropWhile_cons] at hc
    by_cases hp : p a
    · exact ih c (by simpa [hp] using hc)
    · simp [hp] at hc
      subst hc
      simpa using hp

theorem dropWhile_eq_self_of_head (p : α → Bool) (l : List α)
    (h : ∀ c, l.head? = some c → p c = false) : l.dropWhile p = l := by
  cases l with
  | nil => rfl
  | cons a t => simp [List.dropWhile_cons, h a rfl]

theorem getLast?_dropWhile_of_ne_nil (p : α → Bool) (l : List α)
    (h : l.dropWhile p ≠ []) : (l.dropWhile p).getLast? = l.getLast? := by
  induction l with
  | nil => simp at h
  | cons a t ih =>
    rw [List.dropWhile_cons]
    by_cases hp : p a
    · rw [List.dropWhile_cons, if_pos hp] at h
      rw [if_pos hp, ih h]
      cases t with
      | nil => simp at h
      | cons b u => simp
    · rw [if_neg hp]

theorem trimChars_head_not (l : List Char) :
    ∀ c, (trimChars l).head? = some c → isWsChar c = false := by
  intro c hc
  unfold trimChars at hc
  set A := l.dropWhile isWsChar with hA
  set B := A.reverse.dropWhile isWsChar with hB
  by_cases hBe : B = []
  · rw [hBe] at hc; simp at hc
  · have h1 : B.getLast? = some c := by
      rw [List.getLast?_eq_head?_reverse]; exact hc
    have h2 : B.getLast? = A.reverse.getLast? :=
      getLast?_dropWhile_of_ne_nil _ _ hBe
    rw [h2, List.getLast?_eq_head?_reverse, List.reverse_reverse] at h1
    exact head?_dropWhile_not isWsChar l c h1

theorem trimChars_getLast_not (l : List Char) :
    ∀ c, (trimChars l).getLast? = some c → isWsChar c = false := by
  intro c hc
  unfold trimChars at hc
  rw [List.getLast?_eq_head?_reverse, List.reverse_reverse] at hc
  exact head?_dropWhile_not isWsChar _ c hc

theorem trimChars_idem (l : List Char) : trimChars (trimChars l) = trimChars l := by
  have h1 : (trimChars l).dropWhile isWsChar = trimChars l :=
    dropWhile_eq_self_of_head _ _ (trimChars_head_not l)
  have h2 : (trimChars l).reverse.dropWhile isWsChar = (trimChars l).reverse := by
    refine dropWhile_eq_self_of_head _ _ ?_
    intro c hc
    rw [← List.getLast?_eq_head?_reverse] at hc
    exact trimChars_getLast_not l c hc
  calc trimChars (trimChars l)
      = (((trimChars l).dropWhile isWsChar).reverse.dropWhile isWsChar).reverse := rfl
    _ = trimChars l := by rw [h1, h2, List.reverse_reverse]

theorem trimString_fieldOf (f : List Char) : trimString (fieldOf f) = fieldOf f :=
  congrArg String.mk (trimChars_idem f)

/-- A string is non-empty iff its length is positive. -/
theorem string_ne_empty_iff_length_pos (s : String) : s ≠ "" ↔ 0 < s.length := by
  cases s with
  | mk data =>
    cases data with
    | nil => simp [String.length]
    | cons c cs =>
      constructor
      · intro _; simp [String.length]
      · intro _ heq
        simpa using congrArg String.data heq

theorem pushRow_good (row : List String) (rows : List (List String))
    (hrow : ∀ f ∈ row, trimString f = f)
    (hrows : ∀ r ∈ rows, goodRow r) :
    ∀ r ∈ pushRow row rows, goodRow r := by
  intro r hr
  unfold pushRow at hr
  by_cases hne : row.any (fun f => f.length > 0)
  · rw [if_pos hne, List.mem_append] at hr
    rcases hr with hr | hr
    · exact hrows r hr
    · simp at hr
      subst hr
      refine ⟨?_, hrow⟩
      rcases List.any_eq_true.mp hne with ⟨f, hf, hlen⟩
      exact ⟨f, hf, (string_ne_empty_iff_length_pos f).mpr (by simpa using hlen)⟩
  · rw [if_neg hne] at hr
    exact hrows r hr

theorem parseCsvRowsAux_good :
    ∀ (cs : List Char) (inQ : Bool) (field : List Char) (row : List String)
      (rows : List (List String)),
      (∀ f ∈ row, trimString f = f) → (∀ r ∈ rows, goodRow r) →
      ∀ r ∈ parseCsvRowsAux cs inQ field row rows, goodRow r := by
  intro cs inQ field row rows
  induction cs, inQ, field, row, rows using parseCsvRowsAux.induct with
  | case1 inQ field row rows =>
    intro hrow hrows
    refine pushRow_good _ _ ?_ hrows
    intro f hf
    rw [List.mem_append] at hf
    rcases hf with hf | hf
    · exact hrow f hf
    · simp at hf; subst hf; exact trimString_fieldOf _
  | case2 rest field row rows ih =>
    intro hrow hrows
    exact ih hrow hrows
  | case3 rest field row rows h ih =>
    intro hrow hrows
    rw [parseCsvRowsAux.eq_3 _ _ _ _ h]
    exact ih hrow hrows
  | case4 c rest field row rows h1 h2 ih =>
    intro hrow hrows
    rw [parseCsvRowsAux.eq_4 _ _ _ _ _ h1 h2]
    exact ih hrow hrows
  | case5 rest field row rows ih =>
    intro hrow hrows
    rw [parseCsvRowsAux.eq_5]
    exact ih hrow hrows
  | case6 rest field row rows ih =>
    intro hrow hrows
    refine ih ?_ hrows
    intro f hf
    rw [List.mem_append] at hf
    rcases hf with hf | hf
    · exact hrow f hf
    · simp at hf; subst hf; exact trimString_fieldOf _
  | case7 rest field row rows ih =>
    intro hrow hrows
    refine ih (by simp) ?_
    refine pushRow_good _ _ ?_ hrows
    intro f hf
    rw [List.mem_append] at hf
    rcases hf with hf | hf
    · exact hrow f hf
    · simp at hf; subst hf; exact trimString_fieldOf _
  | case8 rest field row rows ih =>
    intro hrow hrows
    refine ih (by simp) ?_
    refine pushRow_good _ _ ?_ hrows
    intro f hf
    rw [List.mem_append] at hf
    rcases hf with hf | hf
    · exact hrow f hf
    · simp at hf; subst hf; exact trimString_fieldOf _
  | case9 c rest field row rows h1 h2 h3 h4 ih =>
    intro hrow hrows
    rw [parseCsvRowsAux.eq_9 _ _ _ _ _ h1 h2 h3 h4]
    exact ih hrow hrows

/-- C5: the row tokenizer is quote-aware — inside quotes, commas and line
breaks are literal content and a doubled quote yields one literal quote; a
line break outside quotes ends the row; every field is trimmed; rows whose
every field is empty are dropped. In particular the input
`"file","note""s","Jones, K.\nmore text"` (real newline inside the third
quoted field) parses to a single row of three fields whose second field is
`note"s` and whose third field keeps the embedded comma and newline. -/
theorem c5_row_tokenizer :
    parseCsvRows "\"file\",\"note\"\"s\",\"Jones, K.\nmore text\""
        = [["file", "note\"s", "Jones, K.\nmore text"]]
      ∧ (∀ text : String, ∀ r ∈ parseCsvRows text, ∃ f ∈ r, f ≠ "")
      ∧ (∀ text : String, ∀ r ∈ parseCsvRows text, ∀ f ∈ r, trimString f = f) := by
  refine ⟨by decide, ?_, ?_⟩
  · intro text r hr
    exact (parseCsvRowsAux_good text.toList false [] [] [] (by simp) (by simp) r hr).1
  · intro text r hr
    exact (parseCsvRowsAux_good text.toList false [] [] [] (by simp) (by simp) r hr).2

/-- Witness for C5: the general clauses applied to the concrete input
`a, b\n` (one row, fields trimmed of the surrounding whitespace). -/
theorem c5_row_tokenizer_witness :
    (["a", "b"] ∈ parseCsvRows " a , b ")
      ∧ (∃ f ∈ ["a", "b"], f ≠ "")
      ∧ (∀ f ∈ ["a", "b"], trimString f = f) :=
  ⟨by decide,
   c5_row_tokenizer.2.1 " a , b " ["a", "b"] (by decide),
   c5_row_tokenizer.2.2 " a , b " ["a", "b"] (by decide)⟩

theorem parseCsv_eq_of_rows (text : String) (headers d : List String)
    (ds : List (List String)) (h : parseCsvRows text = headers :: d :: ds) :
    parseCsv text
      = match findColumnIndex headers with
        | none => .error (.missingColumn headers)
        | some idx => .ok (extractClaims idx (d :: ds) 1 []) := by
  unfold parseCsv
  rw [h]

theorem findIndexFrom_eq_none_iff (p : α → Bool) :
    ∀ (l : List α) (s : ℕ), findIndexFrom p l s = none ↔ ∀ x ∈ l, p x = false := by
  intro l
  induction l with
  | nil => intro s; simp [findIndexFrom]
  | cons a t ih =>
    intro s
    unfold findIndexFrom
    by_cases hp : p a
    · simp [hp]
    · simp only [hp, if_neg, Bool.false_eq_true, if_false]
      rw [ih (s + 1)]
      constructor
      · intro h x hx
        rcases List.mem_cons.mp hx with hx | hx
        · subst hx; simpa using hp
        · exact h x hx
      · intro h x hx
        exact h x (List.mem_cons_of_mem a hx)

theorem findIndexB_eq_none_iff (p : α → Bool) (l : List α) :
    findIndexB p l = none ↔ ∀ x ∈ l, p x = false :=
  findIndexFrom_eq_none_iff p l 0

/-- C6: column selection applies the three tiers with first-match-wins
priority, so the tier-1 exact header `"Claim #"` wins over the earlier
tier-3-only header `"Claim Status"`; `parseCsv` fails with the
empty-or-invalid error when tokenization yields fewer than two rows, and
with the missing-column error exactly when no header matches any tier. -/
theorem c6_column_selection :
    parseCsv "Claim Status,Claim #,Adjuster\nOpen,12345,Jane" = .ok [⟨"12345", 1⟩]
      ∧ (∀ (headers : List String) (i : ℕ),
          findIndexB tier1Match headers = some i → findColumnIndex headers = some i)
      ∧ (∀ (headers : List String) (i : ℕ),
          findIndexB tier1Match headers = none → findIndexB tier2Match headers = some i →
            findColumnIndex headers = some i)
      ∧ (∀ headers : List String,
          findColumnIndex headers = none
            ↔ ∀ h ∈ headers, tier1Match h = false ∧ tier2Match h = false ∧ tier3Match h = false)
      ∧ (∀ text : String, (parseCsvRows text).length < 2 →
          parseCsv text = .error .emptyOrInvalid)
      ∧ (∀ (text : String) (headers : List String) (dataRows : List (List String)),
          parseCsvRows text = headers :: dataRows → dataRows ≠ [] →
            (parseCsv text = .error (.missingColumn headers) ↔ findColumnIndex headers = none)) := by
  refine ⟨rfl, ?_, ?_, ?_, ?_, ?_⟩
  · intro headers i h1
    unfold findColumnIndex
    rw [h1]
  · intro headers i h1 h2
    unfold findColumnIndex
    rw [h1, h2]
  · intro headers
    unfold findColumnIndex
    constructor
    · intro h
      rcases e1 : findIndexB tier1Match headers with _ | i
      · rcases e2 : findIndexB tier2Match headers with _ | i
        · rw [e1, e2] at h
          intro x hx
          exact ⟨(findIndexB_eq_none_iff _ _).mp e1 x hx,
                 (findIndexB_eq_none_iff _ _).mp e2 x hx,
                 (findIndexB_eq_none_iff _ _).mp h x hx⟩
        · rw [e1, e2] at h; exact absurd h (by simp)
      · rw [e1] at h; exact absurd h (by simp)
    · intro h
      rw [(findIndexB_eq_none_iff tier1Match headers).mpr fun x hx => (h x hx).1]
      rw [(findIndexB_eq_none_iff tier2Match headers).mpr fun x hx => (h x hx).2.1]
      exact (findIndexB_eq_none_iff tier3Match headers).mpr fun x hx => (h x hx).2.2
  · intro text hlen
    unfold parseCsv
    rcases e : parseCsvRows text with _ | ⟨h1, _ | ⟨h2, t⟩⟩
    · rfl
    · rfl
    · rw [e] at hlen; simp only [List.length_cons] at hlen; omega
  · intro text headers dataRows hrows hne
    cases dataRows with
    | nil => exact absurd rfl hne
    | cons d ds =>
      rw [parseCsv_eq_of_rows text headers d ds hrows]
      rcases e : findColumnIndex headers with _ | idx
      · simp
      · simp

/-- Witness for C6: the priority clause applied to the one-header list
`["Claim #"]`, which tier-1-matches at index 0. -/
theorem c6_column_selection_witness :
    findIndexB tier1Match ["Claim #"] = some 0 ∧ findColumnIndex ["Claim #"] = some 0 :=
  ⟨by decide, c6_column_selection.2.1 ["Claim #"] 0 (by decide)⟩

theorem filterMap_congr_mem {α β : Type _} {f g : α → Option β} :
    ∀ l : List α, (∀ a ∈ l, f a = g a) → l.filterMap f = l.filterMap g := by
  intro l
  induction l with
  | nil => intro _; rfl
  | cons a t ih =>
    intro h
    rw [List.filterMap_cons, List.filterMap_cons, h a (by simp),
      ih fun x hx => h x (by simp [hx])]

theorem specKeep_zero (idx : ℕ) (seen : List String) (v : List String)
    (l : List (List String)) :
    specKeep idx seen (v :: l) 0 ↔ eligibleRow idx v ∧ valueAt idx v ∉ seen := by
  unfold specKeep
  simp

theorem specKeep_cons_succ_iff (idx : ℕ) (seen : List String) (v : List String)
    (l : List (List String)) (i : ℕ) :
    specKeep idx seen (v :: l) (i + 1)
      ↔ specKeep idx (if eligibleRow idx v then valueAt idx v :: seen else seen) l i := by
  unfold specKeep
  simp only [List.getD_cons_succ]
  by_cases hel : eligibleRow idx v
  · rw [if_pos hel]
    constructor
    · rintro ⟨h1, h2, h3⟩
      refine ⟨h1, ?_, ?_⟩
      · intro hmem
        rcases List.mem_cons.mp hmem with hm | hm
        · exact h3 0 (Nat.succ_pos i) (by simpa using hel) (by simpa using hm.symm)
        · exact h2 hm
      · intro j hj hje
        have := h3 (j + 1) (Nat.succ_lt_succ hj) (by simpa using hje)
        simpa using this
    · rintro ⟨h1, h2, h3⟩
      refine ⟨h1, fun hmem => h2 (List.mem_cons_of_mem _ hmem), ?_⟩
      intro j hj hje
      cases j with
      | zero =>
        simp only [List.getD_cons_zero] at hje ⊢
        intro heq
        exact h2 (by rw [← heq]; exact List.mem_cons_self _ _)
      | succ j' =>
        simp only [List.getD_cons_succ] at hje ⊢
        exact h3 j' (Nat.lt_of_succ_lt_succ hj) hje
  · rw [if_neg hel]
    constructor
    · rintro ⟨h1, h2, h3⟩
      refine ⟨h1, h2, ?_⟩
      intro j hj hje
      have := h3 (j + 1) (Nat.succ_lt_succ hj) (by simpa using hje)
      simpa using this
    · rintro ⟨h1, h2, h3⟩
      refine ⟨h1, h2, ?_⟩
      intro j hj hje
      cases j with
      | zero => exact absurd (by simpa using hje) hel
      | succ j' =>
        simp only [List.getD_cons_succ] at hje ⊢
        exact h3 j' (Nat.lt_of_succ_lt_succ hj) hje

theorem specExtract_cons (idx : ℕ) (seen : List String) (v : List String)
    (l : List (List String)) (r : ℕ) :
    specExtract idx seen (v :: l) r
      = (if eligibleRow idx v ∧ valueAt idx v ∉ seen then
            [(⟨valueAt idx v, r⟩ : ClaimIdent)] else [])
        ++ specExtract idx (if eligibleRow idx v then valueAt idx v :: seen else seen) l (r + 1) := by
  unfold specExtract
  simp only [List.length_cons]
  rw [List.range_succ_eq_map, List.filterMap_cons, List.filterMap_map]
  have htail :
      List.filterMap
          ((fun i => if specKeep idx seen (v :: l) i then
              some (⟨valueAt idx ((v :: l).getD i []), r + i⟩ : ClaimIdent) else none) ∘ Nat.succ)
          (List.range l.length)
        = List.filterMap
            (fun i => if specKeep idx (if eligibleRow idx v then valueAt idx v :: seen else seen) l i then
                some (⟨valueAt idx (l.getD i []), r + 1 + i⟩ : ClaimIdent) else none)
            (List.range l.length) := by
    refine filterMap_congr_mem _ fun i _ => ?_
    simp only [Function.comp_apply, List.getD_cons_succ]
    rw [if_congr (specKeep_cons_succ_iff idx seen v l i) rfl rfl]
    have : r + (i + 1) = r + 1 + i := by omega
    rw [this]
  rw [htail]
  by_cases hz : eligibleRow idx v ∧ valueAt idx v ∉ seen
  · rw [if_pos ((specKeep_zero idx seen v l).mpr hz), if_pos hz]
    simp only [List.getD_cons_zero, Nat.add_zero]
    rfl
  · rw [if_neg (fun hk => hz ((specKeep_zero idx seen v l).mp hk)), if_neg hz]
    rfl

theorem specExtract_congr_seen (idx : ℕ) (l : List (List String)) (r : ℕ)
    (seen seen' : List String) (h : ∀ s, s ∈ seen ↔ s ∈ seen') :
    specExtract idx seen l r = specExtract idx seen' l r := by
  unfold specExtract
  refine filterMap_congr_mem _ fun i _ => ?_
  have hk : specKeep idx seen l i ↔ specKeep idx seen' l i := by
    unfold specKeep
    rw [h (valueAt idx (l.getD i []))]
  rw [if_congr hk rfl rfl]

theorem extractClaims_eq_specExtract (idx : ℕ) :
    ∀ (l : List (List String)) (r : ℕ) (seen : List String),
      extractClaims idx l r seen = specExtract idx seen l r := by
  intro l
  induction l with
  | nil => intro r seen; rfl
  | cons v rest ih =>
    intro r seen
    rw [specExtract_cons]
    unfold extractClaims
    by_cases hshort : v.length < idx + 1
    · have hel : ¬ eligibleRow idx v := fun he => by
        unfold eligibleRow at he; omega
      rw [if_pos hshort, if_neg (fun hz => hel hz.1), if_neg hel, ih]
      rfl
    · rw [if_neg hshort]
      by_cases hcond : valueAt idx v ≠ "" ∧ valueAt idx v ∉ seen
      · have hel : eligibleRow idx v := ⟨by omega, hcond.1⟩
        rw [if_pos hcond, if_pos ⟨hel, hcond.2⟩, if_pos hel, ih]
        rfl
      · rw [if_neg hcond]
        by_cases hemp : valueAt idx v = ""
        · have hel : ¬ eligibleRow idx v := fun he => he.2 hemp
          rw [if_neg (fun hz => hel hz.1), if_neg hel, ih]
          rfl
        · have hel : eligibleRow idx v := ⟨by omega, hemp⟩
          have hseen : valueAt idx v ∈ seen := by
            by_contra hn
            exact hcond ⟨hemp, hn⟩
          rw [if_neg (fun hz => hz.2 hseen), if_pos hel, ih]
          rw [specExtract_congr_seen idx rest (r + 1) seen (valueAt idx v :: seen)
            (fun s => ⟨fun hs => List.mem_cons_of_mem _ hs,
              fun hs => by
                rcases List.mem_cons.mp hs with hs | hs
                · rw [hs]; exact hseen
                · exact hs⟩)]
          rfl

theorem extractClaims_nodup_aux (idx : ℕ) :
    ∀ (l : List (List String)) (r : ℕ) (seen : List String),
      ((extractClaims idx l r seen).map (·.fileNumber)).Nodup
        ∧ ∀ cl ∈ extractClaims idx l r seen, cl.fileNumber ∉ seen := by
  intro l
  induction l with
  | nil => intro r seen; exact ⟨List.nodup_nil, by intro cl hcl; simp [extractClaims] at hcl⟩
  | cons v rest ih =>
    intro r seen
    unfold extractClaims
    by_cases h1 : v.length < idx + 1
    · rw [if_pos h1]; exact ih _ _
    · rw [if_neg h1]
      by_cases h2 : valueAt idx v ≠ "" ∧ valueAt idx v ∉ seen
      · rw [if_pos h2]
        obtain ⟨ihn, ihs⟩ := ih (r + 1) (valueAt idx v :: seen)
        constructor
        · simp only [List.map_cons, List.nodup_cons]
          refine ⟨?_, ihn⟩
          intro hmem
          rcases List.mem_map.mp hmem with ⟨cl, hcl, heq⟩
          exact ihs cl hcl (heq ▸ List.mem_cons_self _ _)
        · intro cl hcl
          rcases List.mem_cons.mp hcl with h | h
          · rw [h]; exact h2.2
          · exact fun hs => ihs cl h (List.mem_cons_of_mem _ hs)
      · rw [if_neg h2]; exact ih _ _

theorem extractClaims_row_order (idx : ℕ) :
    ∀ (l : List (List String)) (r : ℕ) (seen : List String),
      (∀ cl ∈ extractClaims idx l r seen, r ≤ cl.rowIndex)
        ∧ List.Chain' (fun a b : ClaimIdent => a.rowIndex < b.rowIndex)
            (extractClaims idx l r seen) := by
  intro l
  induction l with
  | nil =>
    intro r seen
    refine ⟨?_, by simp [extractClaims]⟩
    intro cl hcl; simp [extractClaims] at hcl
  | cons v rest ih =>
    intro r seen
    unfold extractClaims
    by_cases h1 : v.length < idx + 1
    · rw [if_pos h1]
      obtain ⟨ihle, ihch⟩ := ih (r + 1) seen
      exact ⟨fun cl hcl => le_trans (by omega) (ihle cl hcl), ihch⟩
    · rw [if_neg h1]
      by_cases h2 : valueAt idx v ≠ "" ∧ valueAt idx v ∉ seen
      · rw [if_pos h2]
        obtain ⟨ihle, ihch⟩ := ih (r + 1) (valueAt idx v :: seen)
        constructor
        · intro cl hcl
          rcases List.mem_cons.mp hcl with h | h
          · rw [h]
          · exact le_trans (by omega) (ihle cl h)
        · rw [List.chain'_cons']
          refine ⟨?_, ihch⟩
          intro b hb
          have hble := ihle b (List.mem_of_mem_head? hb)
          simp only
          omega
      · rw [if_neg h2]
        obtain ⟨ihle, ihch⟩ := ih (r + 1) seen
        exact ⟨fun cl hcl => le_trans (by omega) (ihle cl hcl), ihch⟩

/-- Counterexample for C4 as stated. On the input
`claim number,name\n,Bob\nA,Ann` the tier-1 column is index 0, data row 1
(`["", "Bob"]`) has 2 ≥ 0 + 1 columns — so it is not skipped as malformed —
and its value at the selected column, the empty string, occurs there for
the first time; yet the parse returns only the identifier from row 2: the
first occurrence of the distinct value `""` is dropped, not kept, because
the source additionally requires the value to be truthy
(`if (fileNumber && !seen.has(fileNumber))`, part_000 line 348). -/
theorem c4_counterexample :
    parseCsv "claim number,name\n,Bob\nA,Ann" = .ok [⟨"A", 2⟩]
      ∧ parseCsvRows "claim number,name\n,Bob\nA,Ann"
          = [["claim number", "name"], ["", "Bob"], ["A", "Ann"]]
      ∧ findColumnIndex ["claim number", "name"] = some 0
      ∧ (0 + 1 ≤ (["", "Bob"] : List String).length)
      ∧ (∀ cl ∈ [(⟨"A", 2⟩ : ClaimIdent)], cl.rowIndex ≠ 1) :=
  ⟨rfl, by decide, by decide, by decide, by decide⟩

/-- C4 (amended): for every CSV input with at least two tokenized rows and a
recognized identifier column, `parse` succeeds and returns, in first-seen
original row order with no duplicates, the first occurrence of each distinct
non-empty value at the selected column among the rows that reach that
column; rows with fewer columns than the selected index requires, and rows
whose value at the selected column is empty, are skipped without aborting
the parse. (The only amendment forced by the counterexample: a row whose
value at the selected column is empty yields no identifier even on first
occurrence.) -/
theorem c4_first_seen_unique (text : String) (headers : List String)
    (dataRows : List (List String)) (idx : ℕ)
    (hrows : parseCsvRows text = headers :: dataRows)
    (hne : dataRows ≠ [])
    (hcol : findColumnIndex headers = some idx) :
    parseCsv text = .ok (specExtract idx [] dataRows 1)
      ∧ ((specExtract idx [] dataRows 1).map (·.fileNumber)).Nodup
      ∧ List.Chain' (fun a b : ClaimIdent => a.rowIndex < b.rowIndex)
          (specExtract idx [] dataRows 1) := by
  cases dataRows with
  | nil => exact absurd rfl hne
  | cons d ds =>
    refine ⟨?_, ?_, ?_⟩
    · rw [parseCsv_eq_of_rows text headers d ds hrows, hcol]
      show Except.ok (extractClaims idx (d :: ds) 1 []) = _
      rw [extractClaims_eq_specExtract idx (d :: ds) 1 []]
    · rw [← extractClaims_eq_specExtract idx (d :: ds) 1 []]
      exact (extractClaims_nodup_aux idx (d :: ds) 1 []).1
    · rw [← extractClaims_eq_specExtract idx (d :: ds) 1 []]
      exact (extractClaims_row_order idx (d :: ds) 1 []).2

/-- Witness for C4 (amended) at the concrete input used by the
counterexample: hypotheses hold and the parse equals the declarative
first-seen extraction. -/
theorem c4_first_seen_unique_witness :
    parseCsvRows "claim number,name\n,Bob\nA,Ann"
        = [["claim number", "name"], ["", "Bob"], ["A", "Ann"]]
      ∧ ([["", "Bob"], ["A", "Ann"]] : List (List String)) ≠ []
      ∧ findColumnIndex ["claim number", "name"] = some 0
      ∧ parseCsv "claim number,name\n,Bob\nA,Ann"
          = .ok (specExtract 0 [] [["", "Bob"], ["A", "Ann"]] 1) :=
  ⟨by decide, by decide, by decide,
   (c4_first_seen_unique "claim number,name\n,Bob\nA,Ann" ["claim number", "name"]
     [["", "Bob"], ["A", "Ann"]] 0 (by decide) (by decide) (by decide)).1⟩

theorem processClaimsListFrom_eq {α : Type} (fetchOne : ℕ → Except String α)
    (claims : List ClaimIdent) :
    ∀ (n i : ℕ), claims.length - i = n →
      processClaimsListFrom fetchOne claims i
        = (List.range' i n).map
            (fun j => (j, savedDataOf (claims.getD j ⟨"", 0⟩) (fetchOne j))) := by
  intro n
  induction n with
  | zero =>
    intro i hi
    rw [processClaimsListFrom, dif_neg (by omega)]
    rfl
  | succ n ih =>
    intro i hi
    rw [processClaimsListFrom, dif_pos (by omega), ih (i + 1) (by omega)]
    rfl

/-- C2: an identifier whose fetch throws is caught by the driver loop, which
persists at its index a record made of the claim's fields plus the failure
message, and the loop still processes every index from `startFrom` through
the last identifier; the run ends with `exportComplete` set and no
`exportError` — a per-claim failure never fails the job. -/
theorem c2_claim_failure_isolated {α : Type} (fetchOne : ℕ → Except String α)
    (claims : List ClaimIdent) (startFrom i : ℕ) (msg : String)
    (h1 : startFrom ≤ i) (h2 : i < claims.length) (h3 : fetchOne i = .error msg) :
    (i, SavedData.failed (claims.getD i ⟨"", 0⟩) msg)
        ∈ (processClaimsList fetchOne claims startFrom).writes
      ∧ (∀ j, startFrom ≤ j → j < claims.length →
          (j, savedDataOf (claims.getD j ⟨"", 0⟩) (fetchOne j))
            ∈ (processClaimsList fetchOne claims startFrom).writes)
      ∧ (processClaimsList fetchOne claims startFrom).exportComplete = true
      ∧ (processClaimsList fetchOne claims startFrom).exportError = none := by
  have hw : (processClaimsList fetchOne claims startFrom).writes
      = (List.range' startFrom (claims.length - startFrom)).map
          (fun j => (j, savedDataOf (claims.getD j ⟨"", 0⟩) (fetchOne j))) :=
    processClaimsListFrom_eq fetchOne claims _ startFrom rfl
  have hmem : ∀ j, startFrom ≤ j → j < claims.length →
      (j, savedDataOf (claims.getD j ⟨"", 0⟩) (fetchOne j))
        ∈ (processClaimsList fetchOne claims startFrom).writes := by
    intro j hj1 hj2
    rw [hw]
    exact List.mem_map.mpr ⟨j, List.mem_range'_1.mpr ⟨hj1, by omega⟩, rfl⟩
  refine ⟨?_, hmem, rfl, rfl⟩
  have h := hmem i h1 h2
  rw [h3] at h
  exact h

/-- Witness for C2: a three-claim job whose second fetch throws `boom`. -/
theorem c2_claim_failure_isolated_witness :
    0 ≤ 1
      ∧ 1 < ([⟨"A", 1⟩, ⟨"B", 2⟩, ⟨"C", 3⟩] : List ClaimIdent).length
      ∧ (fun j => if j = 1 then Except.error "boom" else Except.ok (0 : ℕ)) 1
          = Except.error "boom"
      ∧ (1, SavedData.failed (⟨"B", 2⟩ : ClaimIdent) "boom")
          ∈ (processClaimsList (fun j => if j = 1 then Except.error "boom" else Except.ok (0 : ℕ))
              [⟨"A", 1⟩, ⟨"B", 2⟩, ⟨"C", 3⟩] 0).writes := by
  refine ⟨by decide, by decide, rfl, ?_⟩
  have h := (c2_claim_failure_isolated
    (fun j => if j = 1 then Except.error "boom" else Except.ok (0 : ℕ))
    [⟨"A", 1⟩, ⟨"B", 2⟩, ⟨"C", 3⟩] 0 1 "boom" (by decide) (by decide) rfl).1
  simpa using h

/-- C7: resuming a persisted job with `completedCount = k` rebuilds the
claims list from the stored `fileNumbers` and re-enters the loop exactly at
index `k`: no write (hence no fetch — the loop fetches precisely once per
written index) is issued for any index below `k`, and every index from `k`
through the end of the job is processed. -/
theorem c7_resume_from_checkpoint {α : Type} (job : ExportJob)
    (fetchOne : ℕ → Except String α) :
    resumeExport (some job) fetchOne
        = .ok (processClaimsList fetchOne
            (job.fileNumbers.mapIdx fun i fn => ⟨fn, i⟩) job.completedCount)
      ∧ ((processClaimsList fetchOne (job.fileNumbers.mapIdx fun i fn => ⟨fn, i⟩)
            job.completedCount).writes.map Prod.fst
          = List.range' job.completedCount (job.fileNumbers.length - job.completedCount))
      ∧ (∀ i, i < job.completedCount → ∀ d,
          (i, d) ∉ (processClaimsList fetchOne (job.fileNumbers.mapIdx fun i fn => ⟨fn, i⟩)
            job.completedCount).writes)
      ∧ (∀ i, job.completedCount ≤ i → i < job.fileNumbers.length → ∃ d,
          (i, d) ∈ (processClaimsList fetchOne (job.fileNumbers.mapIdx fun i fn => ⟨fn, i⟩)
            job.completedCount).writes) := by
  set claims := job.fileNumbers.mapIdx fun i fn => (⟨fn, i⟩ : ClaimIdent) with hclaims
  have hlen : claims.length = job.fileNumbers.length := by
    rw [hclaims, List.length_mapIdx]
  have hw : (processClaimsList fetchOne claims job.completedCount).writes
      = (List.range' job.completedCount (job.fileNumbers.length - job.completedCount)).map
          (fun j => (j, savedDataOf (claims.getD j ⟨"", 0⟩) (fetchOne j))) := by
    rw [← hlen]
    exact processClaimsListFrom_eq fetchOne claims _ job.completedCount rfl
  refine ⟨rfl, ?_, ?_, ?_⟩
  · rw [hw, List.map_map]
    exact List.map_id _
  · intro i hi d hmem
    rw [hw] at hmem
    rcases List.mem_map.mp hmem with ⟨j, hj, heq⟩
    have : j = i := congrArg Prod.fst heq
    subst this
    exact absurd (List.mem_range'_1.mp hj).1 (by omega)
  · intro i hi1 hi2
    refine ⟨savedDataOf (claims.getD i ⟨"", 0⟩) (fetchOne i), ?_⟩
    rw [hw]
    exact List.mem_map.mpr ⟨i, List.mem_range'_1.mpr ⟨hi1, by omega⟩, rfl⟩

/-- Witness for C7: a three-claim job resumed at `completedCount = 1`. -/
theorem c7_resume_from_checkpoint_witness :
    resumeExport
        (some { fileNumbers := ["A", "B", "C"], total := 3, completedCount := 1, testMode := false })
        (fun _ => Except.ok (0 : ℕ))
      = .ok (processClaimsList (fun _ => Except.ok (0 : ℕ))
          ((["A", "B", "C"] : List String).mapIdx fun i fn => ⟨fn, i⟩) 1) :=
  (c7_resume_from_checkpoint
    { fileNumbers := ["A", "B", "C"], total := 3, completedCount := 1, testMode := false }
    (fun _ => Except.ok (0 : ℕ))).1

/-- C10 (implicit): with `testMode` set, the driver slices the parsed claim
list to its first element — the persisted job has a single file number and
`total = 1` however many unique identifiers the CSV held — while with
`testMode` unset the whole parsed list is processed (the loop writes cover
every index of the parsed list). -/
theorem c10_test_mode {α : Type} (csvText : String) (tm : Bool)
    (fetchOne : ℕ → Except String α) (claims : List ClaimIdent)
    (hparse : parseCsv csvText = .ok claims) (hne : claims ≠ []) :
    (processCsvAndFetchData csvText tm fetchOne).job
        = some { fileNumbers := (if tm then claims.take 1 else claims).map (·.fileNumber)
                 total := (if tm then claims.take 1 else claims).length
                 completedCount := 0
                 testMode := tm }
      ∧ (tm = true → (if tm then claims.take 1 else claims).length = 1)
      ∧ (tm = false → (if tm then claims.take 1 else claims) = claims)
      ∧ ((processCsvAndFetchData csvText tm fetchOne).run.map fun rn => rn.writes.map Prod.fst)
          = some (List.range' 0 (if tm then claims.take 1 else claims).length) := by
  have hlenpos : 0 < claims.length := List.length_pos.mpr hne
  have hout : processCsvAndFetchData csvText tm fetchOne
      = { job := some { fileNumbers := (if tm then claims.take 1 else claims).map (·.fileNumber)
                        total := (if tm then claims.take 1 else claims).length
                        completedCount := 0
                        testMode := tm }
          run := some (processClaimsList fetchOne (if tm then claims.take 1 else claims) 0)
          exportError := none } := by
    unfold processCsvAndFetchData
    rw [hparse]
    simp only [if_neg (by omega : ¬ claims.length = 0)]
  refine ⟨by rw [hout], ?_, by intro h; rw [h]; simp, ?_⟩
  · intro h
    rcases claims with _ | ⟨c, rest⟩
    · exact absurd rfl hne
    · rw [if_pos h]
      rfl
  · rw [hout]
    simp only [Option.map_some]
    show some (((processClaimsList fetchOne (if tm then claims.take 1 else claims) 0).writes).map
      Prod.fst) = _
    rw [show (processClaimsList fetchOne (if tm then claims.take 1 else claims) 0).writes
        = (List.range' 0 ((if tm then claims.take 1 else claims).length - 0)).map
            (fun j => (j, savedDataOf ((if tm then claims.take 1 else claims).getD j ⟨"", 0⟩)
               (fetchOne j))) from
      processClaimsListFrom_eq fetchOne _ _ 0 rfl]
    rw [List.map_map]
    exact congrArg some (List.map_id _)

/-- Witness for C10: a two-identifier CSV in test mode yields a job of
size 1. -/
theorem c10_test_mode_witness :
    parseCsv "Claim Number\nX\nY" = .ok [⟨"X", 1⟩, ⟨"Y", 2⟩]
      ∧ ([⟨"X", 1⟩, ⟨"Y", 2⟩] : List ClaimIdent) ≠ []
      ∧ (processCsvAndFetchData "Claim Number\nX\nY" true (fun _ => Except.ok (0 : ℕ))).job
          = some { fileNumbers := ["X"], total := 1, completedCount := 0, testMode := true } := by
  refine ⟨rfl, by decide, ?_⟩
  have h := (c10_test_mode "Claim Number\nX\nY" true (fun _ => Except.ok (0 : ℕ))
    [⟨"X", 1⟩, ⟨"Y", 2⟩] rfl (by decide)).1
  simpa using h

theorem driverStep_inv {s t : DriverState} (hst : DriverStep s t)
    (h : Finset.range s.completedCount ⊆ s.storedKeys
      ∧ s.storedKeys ⊆ Finset.range (s.completedCount + 1)
      ∧ (s.phase = .saved → s.completedCount ∈ s.storedKeys)) :
    Finset.range t.completedCount ⊆ t.storedKeys
      ∧ t.storedKeys ⊆ Finset.range (t.completedCount + 1)
      ∧ (t.phase = .saved → t.completedCount ∈ t.storedKeys) := by
  obtain ⟨h1, h2, h3⟩ := h
  cases hst with
  | fetchSave hp hlt =>
    dsimp only
    refine ⟨h1.trans (Finset.subset_insert _ _), ?_, fun _ => Finset.mem_insert_self _ _⟩
    exact Finset.insert_subset_iff.mpr ⟨Finset.mem_range.mpr (by omega), h2⟩
  | bumpCount hp =>
    dsimp only
    refine ⟨?_, ?_, fun hph => DriverPhase.noConfusion hph⟩
    · intro x hx
      have hx' := Finset.mem_range.mp hx
      by_cases hxc : x = s.completedCount
      · exact hxc ▸ h3 hp
      · exact h1 (Finset.mem_range.mpr (by omega))
    · refine h2.trans (Finset.range_subset.mpr (by omega))
  | interruptResume hp =>
    exact ⟨h1, h2, fun hph => DriverPhase.noConfusion hph⟩

theorem driverReachable_inv (total : ℕ) (s : DriverState) (h : DriverReachable total s) :
    Finset.range s.completedCount ⊆ s.storedKeys
      ∧ s.storedKeys ⊆ Finset.range (s.completedCount + 1)
      ∧ (s.phase = .saved → s.completedCount ∈ s.storedKeys) := by
  induction h with
  | refl =>
    exact ⟨by simp [initialDriverState], by simp [initialDriverState],
      fun hph => DriverPhase.noConfusion hph⟩
  | tail _ hbc ih => exact driverStep_inv hbc ih

/-- Counterexample for C1 as stated. One driver iteration performs two
separately-awaited durable writes: `await saveClaimToStorage(i, claimData)`
(part_000 line 202) and only afterwards the storage update setting
`completedCount = i + 1` (lines 205-210). At the suspension point between
them — reachable by a single step from a fresh 1-claim job — key
`exportedClaim_0` is durably stored while the persisted ledger still reads
`completedCount = 0`: the stored key set `{0}` is not exactly
`{0, …, completedCount - 1} = {}`, and the stored key 0 lies at
`completedCount`. -/
theorem c1_counterexample :
    DriverReachable 1 midWriteState
      ∧ midWriteState.storedKeys ≠ Finset.range midWriteState.completedCount := by
  constructor
  · exact Relation.ReflTransGen.single
      (DriverStep.fetchSave (initialDriverState 1) rfl (by simp [initialDriverState]))
  · show insert 0 ∅ ≠ Finset.range 0
    simp

/-- C1 (amended): at every durable point of a run — across any sequence of
iterations, interruptions and resumes — the set of stored per-claim keys is
exactly `{0, …, completedCount-1}` or exactly `{0, …, completedCount}`: no
index below `completedCount` is ever missing and no key beyond
`completedCount` is ever stored; the one possible extra key, at exactly
`completedCount`, is the record whose awaited write precedes the counter
update that will count it. -/
theorem c1_checkpoint_invariant (total : ℕ) (s : DriverState)
    (h : DriverReachable total s) :
    s.storedKeys = Finset.range s.completedCount
      ∨ s.storedKeys = Finset.range (s.completedCount + 1) := by
  obtain ⟨h1, h2, _⟩ := driverReachable_inv total s h
  by_cases hc : s.completedCount ∈ s.storedKeys
  · right
    refine Finset.Subset.antisymm h2 ?_
    intro x hx
    have hx' := Finset.mem_range.mp hx
    by_cases hxc : x = s.completedCount
    · exact hxc ▸ hc
    · exact h1 (Finset.mem_range.mpr (by omega))
  · left
    refine Finset.Subset.antisymm ?_ h1
    intro x hx
    have hx' := Finset.mem_range.mp (h2 hx)
    refine Finset.mem_range.mpr ?_
    rcases Nat.lt_succ_iff_lt_or_eq.mp hx' with h | h
    · exact h
    · exact absurd (h ▸ hx) hc

/-- Witness for C1 (amended): the durable state after one full iteration of
a 1-claim job (record write then counter write), where the stored keys are
exactly `{0, …, completedCount - 1} = {0}`. -/
theorem c1_checkpoint_invariant_witness :
    DriverReachable 1 finishedState
      ∧ (finishedState.storedKeys = Finset.range finishedState.completedCount
          ∨ finishedState.storedKeys = Finset.range (finishedState.completedCount + 1)) := by
  have hreach : DriverReachable 1 finishedState :=
    Relation.ReflTransGen.tail
      (Relation.ReflTransGen.single
        (DriverStep.fetchSave (initialDriverState 1) rfl (by simp [initialDriverState])))
      (DriverStep.bumpCount midWriteState rfl)
  exact ⟨hreach, c1_checkpoint_invariant 1 _ hreach⟩

/-- Counterexample for C3 as stated: on a non-OK search response,
`fetchClaimDetails` itself throws (`Search failed: 500`) instead of
returning a ClaimRecord carrying an `error` field — the folding of the
failure into an error-tagged record happens one level up, in the driver
loop's catch (part_000 lines 196-199), not inside `fetchClaimDetails`
(which rethrows search, claim-not-found and primary-detail failures,
lines 390-412). -/
theorem c3_counterexample :
    fetchClaimDetails ⟨"FN-1", 1⟩ searchFailWorld = .error "Search failed: 500" := rfl

/-- C3 (amended): `fetchClaimDetails` throws exactly on a non-OK search
response, a missing/empty search result set, or a failing primary-detail
fetch — the eight phase-3 fan-out outcomes can never make it throw — and
every exception it raises is absorbed by its only caller, the driver loop,
which folds it into an error-tagged record; so the loop always persists a
record (fetched or error-tagged) and no failure escapes past the caller. -/
theorem c3_fetcher_error_behavior (claim : ClaimIdent) (w : RemoteWorld) :
    ((∃ e, fetchClaimDetails claim w = .error e)
        ↔ (w.searchOk = false ∨ w.searchClaims = none ∨ w.searchClaims = some []
            ∨ ∃ e, w.claimDetail = .error e))
      ∧ (∀ e, fetchClaimDetails claim w = .error e →
          savedDataOf claim (fetchClaimDetails claim w) = .failed claim e)
      ∧ ((∃ r, savedDataOf claim (fetchClaimDetails claim w) = .fetched r)
          ∨ (∃ e, savedDataOf claim (fetchClaimDetails claim w) = .failed claim e)) := by
  refine ⟨?_, ?_, ?_⟩
  · unfold fetchClaimDetails
    cases hok : w.searchOk with
    | false => simp [hok]
    | true =>
      cases hsc : w.searchClaims with
      | none => simp [hok, hsc]
      | some l =>
        cases l with
        | nil => simp [hok, hsc]
        | cons ci rest =>
          cases hcd : w.claimDetail with
          | error e => simp [hok, hsc, hcd]
          | ok fd => simp [hok, hsc, hcd]
  · intro e he
    rw [he]
    rfl
  · cases hf : fetchClaimDetails claim w with
    | ok r => exact Or.inl ⟨r, rfl⟩
    | error e => exact Or.inr ⟨e, rfl⟩

/-- Witness for C3 (amended): in the 500-search world the fetch throws and
the driver-loop catch persists the error-tagged record. -/
theorem c3_fetcher_error_behavior_witness :
    fetchClaimDetails ⟨"FN-1", 1⟩ searchFailWorld = .error "Search failed: 500"
      ∧ savedDataOf ⟨"FN-1", 1⟩ (fetchClaimDetails ⟨"FN-1", 1⟩ searchFailWorld)
          = .failed ⟨"FN-1", 1⟩ "Search failed: 500" :=
  ⟨rfl, (c3_fetcher_error_behavior ⟨"FN-1", 1⟩ searchFailWorld).2.1 "Search failed: 500" rfl⟩

theorem fetchAllFiles_depth_exceeded (tree : Option String → Except String Json)
    (folderKey : Option String) (depth : ℕ) (h : maxDepth < depth) :
    fetchAllFiles tree folderKey depth = [] := by
  unfold fetchAllFiles
  rw [dif_pos h]

theorem fetchAllFiles_nonfolder_aux :
    ∀ (n : ℕ) (tree : Option String → Except String Json) (folderKey : Option String)
      (depth : ℕ), maxDepth + 1 - depth ≤ n →
      ∀ item ∈ fetchAllFiles tree folderKey depth,
        (jsGet item "folder").truthy = false ∧ (jsGet item "filename").truthy = true := by
  intro n
  induction n with
  | zero =>
    intro tree folderKey depth hn item hmem
    rw [fetchAllFiles_depth_exceeded tree folderKey depth (by omega)] at hmem
    simp at hmem
  | succ n ih =>
    intro tree folderKey depth hn item hmem
    by_cases hd : maxDepth < depth
    · rw [fetchAllFiles_depth_exceeded tree folderKey depth hd] at hmem
      simp at hmem
    · unfold fetchAllFiles at hmem
      rw [dif_neg hd] at hmem
      cases htree : tree folderKey with
      | error e => rw [htree] at hmem; simp at hmem
      | ok resp =>
        rw [htree] at hmem
        dsimp only at hmem
        cases harr : resp.asArr with
        | none => rw [harr] at hmem; simp at hmem
        | some items =>
          rw [harr] at hmem
          dsimp only at hmem
          rcases List.mem_flatMap.mp hmem with ⟨it, _, hit⟩
          by_cases h1 : ((jsGet it "folder").truthy && (jsGet it "hasChildren").truthy
              && (jsGet it "key").truthy && !isAttachmentsKey (jsGet it "key")) = true
          · rw [if_pos h1] at hit
            exact ih tree _ (depth + 1) (by omega) item hit
          · rw [if_neg h1] at hit
            by_cases h2 : (!(jsGet it "folder").truthy && (jsGet it "filename").truthy) = true
            · rw [if_pos h2] at hit
              simp only [List.mem_singleton] at hit
              subst hit
              simpa using h2
            · rw [if_neg h2] at hit
              simp at hit

/-- C9: the recursive folder walk terminates on every input — each
recursive call strictly increases `depth` (visible in its definition) and
any call with depth beyond the fixed bound 5 returns `[]` — it returns `[]`
without throwing when the listing call fails or yields a non-array, it
recurses only into folder entries (so everything it collects is a
non-folder entry with a filename), gathered into one flat list. -/
theorem c9_file_walk_bounded :
    maxDepth = 5
      ∧ (∀ (tree : Option String → Except String Json) (folderKey : Option String)
          (depth : ℕ), maxDepth < depth → fetchAllFiles tree folderKey depth = [])
      ∧ (∀ (tree : Option String → Except String Json) (folderKey : Option String)
          (depth : ℕ) (e : String), tree folderKey = .error e →
            fetchAllFiles tree folderKey depth = [])
      ∧ (∀ (tree : Option String → Except String Json) (folderKey : Option String)
          (depth : ℕ) (resp : Json), tree folderKey = .ok resp → resp.asArr = none →
            fetchAllFiles tree folderKey depth = [])
      ∧ (∀ (tree : Option String → Except String Json) (folderKey : Option String)
          (depth : ℕ), ∀ item ∈ fetchAllFiles tree folderKey depth,
            (jsGet item "folder").truthy = false ∧ (jsGet item "filename").truthy = true) := by
  refine ⟨rfl, fetchAllFiles_depth_exceeded, ?_, ?_, ?_⟩
  · intro tree folderKey depth e htree
    by_cases hd : maxDepth < depth
    · exact fetchAllFiles_depth_exceeded tree folderKey depth hd
    · unfold fetchAllFiles
      rw [dif_neg hd, htree]
  · intro tree folderKey depth resp htree harr
    by_cases hd : maxDepth < depth
    · exact fetchAllFiles_depth_exceeded tree folderKey depth hd
    · unfold fetchAllFiles
      rw [dif_neg hd, htree]
      dsimp only
      rw [harr]
  · intro tree folderKey depth
    exact fetchAllFiles_nonfolder_aux (maxDepth + 1 - depth) tree folderKey depth le_rfl

/-- Witness for C9: a call at depth 6 returns the empty list, and a listing
failure at the root returns the empty list. -/
theorem c9_file_walk_bounded_witness :
    maxDepth < 6
      ∧ fetchAllFiles (fun _ => Except.ok Json.null) none 6 = []
      ∧ ((fun _ : Option String => (Except.error "offline" : Except String Json)) none
          = Except.error "offline")
      ∧ fetchAllFiles (fun _ => Except.error "offline") none 0 = [] :=
  ⟨by decide,
   c9_file_walk_bounded.2.1 (fun _ => Except.ok Json.null) none 6 (by decide),
   rfl,
   c9_file_walk_bounded.2.2.1 (fun _ => Except.error "offline") none 0 "offline" rfl⟩

theorem escapeChar_natDigitChar (d : ℕ) (h : d < 10) :
    escapeChar (natDigitChar d) = [natDigitChar d] := by
  interval_cases d <;> decide

theorem natToCharsAux_escape :
    ∀ (fuel n : ℕ) (acc : List Char), (∀ ch ∈ acc, escapeChar ch = [ch]) →
      ∀ ch ∈ natToCharsAux fuel n acc, escapeChar ch = [ch] := by
  intro fuel
  induction fuel with
  | zero => intro n acc hacc; exact hacc
  | succ fuel ih =>
    intro n acc hacc ch hch
    unfold natToCharsAux at hch
    by_cases hn : n < 10
    · rw [if_pos hn] at hch
      rcases List.mem_cons.mp hch with h | h
      · rw [h]; exact escapeChar_natDigitChar n hn
      · exact hacc ch h
    · rw [if_neg hn] at hch
      refine ih (n / 10) _ ?_ ch hch
      intro c hc
      rcases List.mem_cons.mp hc with h | h
      · rw [h]; exact escapeChar_natDigitChar (n % 10) (Nat.mod_lt n (by omega))
      · exact hacc c h

theorem escapeString_eq_self_of (s : String)
    (h : ∀ ch ∈ s.toList, escapeChar ch = [ch]) : escapeString s = s := by
  cases s with
  | mk data =>
    show String.mk (data.flatMap escapeChar) = String.mk data
    refine congrArg String.mk ?_
    induction data with
    | nil => rfl
    | cons c cs ih =>
      rw [List.flatMap_cons, h c (by simp [String.toList]),
        ih fun ch hch => h ch (by simp [String.toList] at hch ⊢; exact Or.inr hch)]
      rfl

theorem escapeString_natToString (n : ℕ) : escapeString (natToString n) = natToString n :=
  escapeString_eq_self_of _ fun ch hch =>
    natToCharsAux_escape (n + 1) n [] (by simp) ch (by simpa [natToString, String.toList] using hch)

theorem escapeString_append (a b : String) :
    escapeString (a ++ b) = escapeString a ++ escapeString b := by
  cases a with
  | mk da =>
    cases b with
    | mk db =>
      show String.mk ((da ++ db).flatMap escapeChar)
        = String.mk (da.flatMap escapeChar ++ db.flatMap escapeChar)
      rw [List.flatMap_append]

theorem render_level_three (j : Json) : Json.render 3 j = j.stringify := by
  cases j <;> simp [Json.render]

theorem renderList_two (cs : List Json) :
    Json.renderList 2 cs = cs.map fun j => "      " ++ Json.stringify j := by
  induction cs with
  | nil => rfl
  | cons c cs ih =>
    rw [Json.renderList, ih, List.map_cons, render_level_three]
    refine congrArg (· :: _) (congrArg (· ++ _) ?_)
    decide


theorem range'_split (s m n : ℕ) :
    List.range' s (m + n) = List.range' s m ++ List.range' (s + m) n := by
  have h := List.range'_append s m n 1
  rw [one_mul] at h
  rw [Nat.add_comm m n, ← h]

theorem appendBatchClaims_eq (store : ℕ → Option Json) :
    ∀ (keys : List ℕ) (acc : String) (first : Bool),
      appendBatchClaims store keys (acc, first)
        = (acc ++ claimsConcat first (keys.filterMap store),
           first && (keys.filterMap store).isEmpty) := by
  intro keys
  induction keys with
  | nil =>
    intro acc first
    simp [appendBatchClaims, claimsConcat, String.append_empty]
  | cons k ks ih =>
    intro acc first
    have hstep :
        appendBatchClaims store (k :: ks) (acc, first)
          = appendBatchClaims store ks
              (match store k with
               | some claim =>
                 (acc ++ (if first then "" else ",\n") ++ "      " ++ Json.stringify claim, false)
               | none => (acc, first)) := rfl
    rw [hstep]
    cases hk : store k with
    | none =>
      dsimp only
      rw [ih acc first, List.filterMap_cons, hk]
    | some claim =>
      dsimp only
      rw [ih, List.filterMap_cons, hk]
      dsimp only
      refine Prod.ext ?_ ?_
      · dsimp only
        rw [show claimsConcat first (claim :: ks.filterMap store)
            = (if first then "" else ",\n") ++ "      " ++ Json.stringify claim
              ++ claimsConcat false (ks.filterMap store) from rfl]
        apply String.ext
        simp [String.append_assoc]
      · simp

theorem claimsConcat_append (cs ds : List Json) (first : Bool) :
    claimsConcat first (cs ++ ds)
      = claimsConcat first cs ++ claimsConcat (first && cs.isEmpty) ds := by
  induction cs generalizing first with
  | nil => simp [claimsConcat]
  | cons c cs ih =>
    rw [List.cons_append]
    show (if first then "" else ",\n") ++ "      " ++ Json.stringify c
        ++ claimsConcat false (cs ++ ds) = _
    rw [ih false]
    rw [show claimsConcat first (c :: cs)
        = (if first then "" else ",\n") ++ "      " ++ Json.stringify c
          ++ claimsConcat false cs from rfl]
    rw [show (first && (c :: cs).isEmpty) = false by simp]
    apply String.ext
    simp [String.append_assoc]

theorem downloadBatchesFrom_eq (store : ℕ → Option Json) (count : ℕ) :
    ∀ (n batchStart : ℕ) (isFirst : Bool), count - batchStart ≤ n →
      downloadBatchesFrom store count batchStart isFirst
        = claimsConcat isFirst ((List.range' batchStart (count - batchStart)).filterMap store) := by
  intro n
  induction n with
  | zero =>
    intro b first hn
    unfold downloadBatchesFrom
    rw [dif_neg (by omega), show count - b = 0 by omega]
    rfl
  | succ n ih =>
    intro b first hn
    by_cases hb : b < count
    · unfold downloadBatchesFrom
      rw [dif_pos hb, appendBatchClaims_eq store _ "" first]
      dsimp only
      by_cases hbig : b + LOAD_BATCH_SIZE ≤ count
      · rw [show min (b + LOAD_BATCH_SIZE) count = b + LOAD_BATCH_SIZE by omega]
        rw [show b + LOAD_BATCH_SIZE - b = LOAD_BATCH_SIZE from by omega]
        rw [ih (b + LOAD_BATCH_SIZE) _ (by simp only [LOAD_BATCH_SIZE] at *; omega)]
        rw [show count - b = LOAD_BATCH_SIZE + (count - (b + LOAD_BATCH_SIZE)) from by
          simp only [LOAD_BATCH_SIZE] at *; omega]
        rw [range'_split, List.filterMap_append, claimsConcat_append]
        apply String.ext
        simp [String.append_assoc]
      · rw [show min (b + LOAD_BATCH_SIZE) count = count by omega]
        rw [ih (b + LOAD_BATCH_SIZE) _ (by simp only [LOAD_BATCH_SIZE] at *; omega)]
        rw [show count - (b + LOAD_BATCH_SIZE) = 0 from by
          simp only [LOAD_BATCH_SIZE] at *; omega]
        show ("" : String) ++ claimsConcat first _ ++ claimsConcat _ [] = _
        rw [show ∀ x : Bool, claimsConcat x [] = "" from fun _ => rfl]
        apply String.ext
        simp [String.append_assoc]
    · unfold downloadBatchesFrom
      rw [dif_neg hb, show count - b = 0 by omega]
      rfl

theorem claimsConcat_true_joinSep (cs : List Json) :
    claimsConcat true cs = joinSep ",\n" (cs.map fun c => "      " ++ Json.stringify c) := by
  induction cs with
  | nil => rfl
  | cons c cs ih =>
    cases cs with
    | nil =>
      show ("" : String) ++ "      " ++ Json.stringify c ++ claimsConcat false [] = _
      rw [show claimsConcat false ([] : List Json) = "" from rfl]
      show _ = "      " ++ Json.stringify c
      apply String.ext
      simp [String.append_assoc]
    | cons d ds =>
      show ("" : String) ++ "      " ++ Json.stringify c ++ claimsConcat false (d :: ds) = _
      rw [show claimsConcat false (d :: ds)
          = (",\n" : String) ++ "      " ++ Json.stringify d ++ claimsConcat false ds from rfl]
      rw [List.map_cons, List.map_cons]
      rw [show joinSep ",\n" (("      " ++ Json.stringify c)
            :: ("      " ++ Json.stringify d) :: List.map (fun x => "      " ++ Json.stringify x) ds)
          = ("      " ++ Json.stringify c) ++ ",\n"
            ++ joinSep ",\n" (("      " ++ Json.stringify d)
                :: List.map (fun x => "      " ++ Json.stringify x) ds) from rfl]
      rw [← List.map_cons (fun x => "      " ++ Json.stringify x) d ds, ← ih]
      rw [show claimsConcat true (d :: ds)
          = ("" : String) ++ "      " ++ Json.stringify d ++ claimsConcat false ds from rfl]
      apply String.ext
      simp [String.append_assoc]

theorem filterMap_eq_map_of_some {α β : Type _} (g : α → Option β) (f : α → β) :
    ∀ l : List α, (∀ a ∈ l, g a = some (f a)) → l.filterMap g = l.map f := by
  intro l
  induction l with
  | nil => intro _; rfl
  | cons a t ih =>
    intro h
    rw [List.filterMap_cons, h a (by simp), List.map_cons,
      ih fun x hx => h x (by simp [hx])]

/-- C8: for every populated job, the assembler's output is exactly the
pretty rendering of the specification's document shape — a JSON object
`{claimWizardData: {claims, exportDate, exportMethod}, exportInfo: {date,
version, source, totalClaims, partial?, originalTotal?, note?}}` — whose
claims array is the stored records at indices `0, …, completedCount - 1` in
ascending index order, whose `totalClaims` is `completedCount`, and which
carries `partial: true`, `originalTotal` and a `note` exactly on partial
downloads; the records are read from the store in fixed batches of
`LOAD_BATCH_SIZE = 100` keys. -/
theorem c8_export_assembly (store : ℕ → Option Json) (job : ExportJob) (partialFlag : Bool)
    (now : String) (hc : job.completedCount ≠ 0) (hnow : escapeString now = now) :
    downloadFromStorage store (some job) partialFlag now
        = some (Json.render 0 (exportDocumentSpec (collectClaims store job.completedCount) now
            job.completedCount job.total partialFlag))
      ∧ LOAD_BATCH_SIZE = 100
      ∧ (∀ f : ℕ → Json, (∀ i, i < job.completedCount → store i = some (f i)) →
          collectClaims store job.completedCount
            = (List.range job.completedCount).map f) := by
  refine ⟨?_, rfl, ?_⟩
  · unfold downloadFromStorage
    dsimp only
    rw [if_neg hc]
    refine congrArg some ?_
    rw [downloadBatchesFrom_eq store job.completedCount job.completedCount 0 true (by omega)]
    rw [show job.completedCount - 0 = job.completedCount from rfl]
    rw [← List.range_eq_range']
    rw [show (List.range job.completedCount).filterMap store
        = collectClaims store job.completedCount from rfl]
    rw [claimsConcat_true_joinSep, ← renderList_two]
    unfold exportDocumentSpec
    cases partialFlag with
    | false =>
      simp only [if_neg (Bool.false_ne_true), List.append_nil]
      simp only [Json.render, Json.renderFields, Json.renderList, Json.stringify]
      simp only [hnow]
      apply String.ext
      simp [joinSep, spacesn, escapeString, escapeChar, String.append_assoc]
    | true =>
      simp only [if_pos rfl, List.cons_append, List.nil_append]
      simp only [Json.render, Json.renderFields, Json.renderList, Json.stringify]
      simp only [hnow, escapeString_append, escapeString_natToString]
      apply String.ext
      simp [joinSep, spacesn, escapeString, escapeChar, String.append_assoc]
  · intro f hf
    exact filterMap_eq_map_of_some store f _
      fun i hi => hf i (List.mem_range.mp hi)

/-- Witness for C8: a one-claim store, partial download of a job with
`completedCount = 1`. -/
theorem c8_export_assembly_witness :
    (({ fileNumbers := ["X"], total := 1, completedCount := 1,
        testMode := false } : ExportJob).completedCount ≠ 0)
      ∧ escapeString "2026-01-01T00:00:00.000Z" = "2026-01-01T00:00:00.000Z"
      ∧ downloadFromStorage
            (fun i => if i = 0 then some (Json.obj [("fileNumber", Json.str "X")]) else none)
            (some { fileNumbers := ["X"], total := 1, completedCount := 1, testMode := false })
            true "2026-01-01T00:00:00.000Z"
          = some (Json.render 0 (exportDocumentSpec
              (collectClaims
                (fun i => if i = 0 then some (Json.obj [("fileNumber", Json.str "X")]) else none) 1)
              "2026-01-01T00:00:00.000Z" 1 1 true)) :=
  ⟨by decide, by decide,
   (c8_export_assembly
     (fun i => if i = 0 then some (Json.obj [("fileNumber", Json.str "X")]) else none)
     { fileNumbers := ["X"], total := 1, completedCount := 1, testMode := false }
     true "2026-01-01T00:00:00.000Z" (by decide) (by decide)).1⟩

end ClaimsExporter
